import Mathlib

/-!
Flash abstraction layer of the nRF5x core (`cores/nRF5/flash/flash_nrf5x.c`).

A shallow embedding of `flash_nrf5x_event_cb`, `fal_erase`, `fal_program`,
`fal_read` and `fal_verify`.

The C functions talk to three collaborators that are not part of the file:
the SoftDevice flash controller (`sd_flash_page_erase`, `sd_flash_write`,
`sd_softdevice_is_enabled`), the FreeRTOS counting semaphore
(`xSemaphoreCreateCounting`, `xSemaphoreGive`, `xSemaphoreTake`) and
`delay`.  They are modelled on an explicit `World`:

* the status every controller call answers is read from a script held in the
  world, one entry per invocation of a primitive;
* every collaborator call is appended to a trace, so that "how often" and
  "in which order" are statements about a list;
* with the stack inactive a primitive that answers success has done its work
  on the flash; with the stack active the answer only means that the request
  is accepted: the operation is pending, and its effect reaches the flash when
  the controller completes it and raises the completion event;
* a blocking `xSemaphoreTake` is sequentialised: while the count is zero
  the controller completes the oldest pending operation and the dispatcher
  delivers the next completion event by running `flash_nrf5x_event_cb`; with
  no event left the caller stays blocked.

`cprintf` (a debug print) has no effect on any of this and is left out.
-/

namespace FlashNrf5x

/-! ## Constants -/

/-- Modelled from the spec: the status `NRF_SUCCESS` of `nrf_error.h`
(the operation outcome "Success"). -/
def NRF_SUCCESS : Nat := 0

/-- Modelled from the spec: the status `NRF_ERROR_BUSY` of `nrf_error.h`
(the retryable operation outcome "Busy"). -/
def NRF_ERROR_BUSY : Nat := 17

/-- Modelled from the spec: the page size `FLASH_NRF52_PAGE_SIZE` of
`flash_nrf5x.h`; the scenario of section 8 reads a whole page as 4096 bytes. -/
def FLASH_NRF52_PAGE_SIZE : Nat := 4096

/-- Number of values of a `uint32_t`; addresses are 32 bits wide. -/
def U32 : Nat := 2 ^ 32

/-- The erased-state value of a flash byte. -/
def ERASED : Nat := 0xFF

/-! ## Data model -/

/-- The counting semaphore behind `SemaphoreHandle_t`: its maximum count and
its current count. -/
structure Sem where
  max : Nat
  count : Nat
deriving DecidableEq, Repr

/-- One call to a collaborator, as recorded in the trace. -/
inductive Event where
  /-- The call `xSemaphoreCreateCounting(max, init)`. -/
  | sem_create (max init : Nat)
  /-- The call `sd_flash_page_erase(page)`. -/
  | page_erase (page : Nat)
  /-- The call `sd_flash_write(dst, src, size)`; `srcOff` is the byte offset of
  the source pointer inside the caller's buffer, `size` counts 32-bit words. -/
  | flash_write (dst srcOff size : Nat)
  /-- The call `delay(ms)`. -/
  | delay (ms : Nat)
  /-- One unit acquired by `xSemaphoreTake`. -/
  | sem_take
  /-- The call `xSemaphoreGive`. -/
  | sem_give
deriving DecidableEq, Repr

/-- A `void const *` into a caller buffer: the bytes of the object and the
byte offset of the pointer inside it. -/
structure Ptr where
  obj : Nat → Nat
  off : Nat

/-- Pointer arithmetic `p + k` (in bytes). -/
def Ptr.add (p : Ptr) (k : Nat) : Ptr := { p with off := p.off + k }

/-- The byte `((uint8_t const *) p)[i]`. -/
def Ptr.byte (p : Ptr) (i : Nat) : Nat := p.obj (p.off + i) % 256

/-- Pointer to the start of a buffer given as a list of bytes. -/
def Ptr.ofList (B : List Nat) : Ptr := { obj := fun i => B.getD i 0, off := 0 }

/-- The state the functions run on. -/
structure World where
  /-- The file-scope `static SemaphoreHandle_t _sem`; `none` is `NULL`. -/
  sem : Option Sem
  /-- The memory-mapped flash, one byte per 32-bit address. -/
  mem : Nat → Nat
  /-- What `sd_softdevice_is_enabled` writes to `sd_en`. -/
  sd_en : Nat
  /-- Whether `xSemaphoreCreateCounting` finds the memory for a semaphore. -/
  heap_ok : Bool
  /-- The statuses the controller answers, one per primitive invocation. -/
  script : List Nat
  /-- The operations the controller accepted while the stack was active and
  has not completed yet, oldest first, each as its effect on the flash. -/
  pending : List ((Nat → Nat) → (Nat → Nat))
  /-- The completion events the dispatcher still delivers to a blocked caller. -/
  events : List Nat
  /-- Every collaborator call so far, oldest first. -/
  trace : List Event

/-- How a call ends. -/
inductive Result (α : Type) where
  /-- The call returns `v`. -/
  | ret (v : α) (w : World)
  /-- The controller answered Busy up to the end of the script: the retry
  loop is still running. -/
  | busy_forever (w : World)
  /-- The caller waits on the semaphore and no completion event is left. -/
  | blocked (w : World)
  /-- The call `xSemaphoreTake(NULL, ...)`. -/
  | fault (w : World)

/-- The state in which a call ended. -/
def Result.world {α : Type} : Result α → World
  | .ret _ w => w
  | .busy_forever w => w
  | .blocked w => w
  | .fault w => w

/-- The returned value, if the call returned. -/
def Result.value {α : Type} : Result α → Option α
  | .ret v _ => some v
  | _ => none

/-- Sequencing: carry on with `f` when the first step returned. -/
def Result.bind {α β : Type} (r : Result α) (f : α → World → Result β) : Result β :=
  match r with
  | .ret v w => f v w
  | .busy_forever w => .busy_forever w
  | .blocked w => .blocked w
  | .fault w => .fault w

/-! ## Collaborators -/

/-- Modelled from the spec: `xSemaphoreCreateCounting(max, init)` of FreeRTOS,
"a counting semaphore-like object" with a bounded count; yields `NULL` when
the memory is exhausted. -/
def xSemaphoreCreateCounting (max init : Nat) (w : World) : World :=
  { w with
    sem := if w.heap_ok then some { max := max, count := init } else none
    trace := w.trace ++ [Event.sem_create max init] }

/-- Modelled from the spec: `xSemaphoreGive` of FreeRTOS on the semaphore `s`,
which "releases one unit"; the count is bounded by the capacity, a give at the
capacity leaves it as it is. -/
def xSemaphoreGive (s : Sem) (w : World) : World :=
  { w with
    sem := some { s with count := if s.count < s.max then s.count + 1 else s.count }
    trace := w.trace ++ [Event.sem_give] }

/-- Modelled from the spec: `delay(ms)`, the fixed backoff of the retry loop. -/
def delay (ms : Nat) (w : World) : World :=
  { w with trace := w.trace ++ [Event.delay ms] }

/-- Modelled from the spec: one invocation of a controller primitive that
answers `st`.  The call is recorded; a Busy or failed request changes nothing.
On the answer `NRF_SUCCESS` with the stack inactive the operation "is already
complete upon primitive success (synchronous mode)": the effect `eff` is on
the flash.  With the stack active the request is only accepted, the
operation "is only truly complete once the controller's asynchronous
completion event fires": the effect joins the pending operations. -/
def controller_call (ev : Event) (eff : (Nat → Nat) → (Nat → Nat)) (st : Nat)
    (w : World) : World :=
  { w with
    mem := if st = NRF_SUCCESS ∧ w.sd_en = 0 then eff w.mem else w.mem
    pending := if st = NRF_SUCCESS ∧ w.sd_en ≠ 0 then w.pending ++ [eff] else w.pending
    trace := w.trace ++ [ev] }

/-- Modelled from the spec: the controller completes the oldest pending
operation, whose effect reaches the flash; with nothing pending the flash
stays as it is. -/
def complete_oldest (w : World) : World :=
  match w.pending with
  | [] => w
  | op :: ops => { w with mem := op w.mem, pending := ops }

/-- Modelled from the spec: erasing page `page` sets every byte of
`[page * PAGE, (page + 1) * PAGE)` to the erased value. -/
def erase_page (page : Nat) (mem : Nat → Nat) : Nat → Nat :=
  fun a =>
    if page * FLASH_NRF52_PAGE_SIZE ≤ a ∧ a < (page + 1) * FLASH_NRF52_PAGE_SIZE
    then ERASED else mem a

/-- Modelled from the spec: programming `n` bytes from `src` at address `dst`,
byte by byte at 32-bit addresses; programming "can only clear bits", so the new
content is the old content AND the data. -/
def program_bytes (dst : Nat) (src : Ptr) : Nat → (Nat → Nat) → (Nat → Nat)
  | 0, mem => mem
  | k + 1, mem =>
    let m := program_bytes dst src k mem
    let a := (dst + k) % U32
    fun x => if x = a then m a &&& src.byte k else m x

/-- Modelled from the spec: `sd_flash_page_erase(page)` answering `st`. -/
def sd_flash_page_erase (page : Nat) (st : Nat) (w : World) : World :=
  controller_call (Event.page_erase page) (erase_page page) st w

/-- Modelled from the spec: `sd_flash_write(dst, src, size)` answering `st`;
`size` counts 32-bit words. -/
def sd_flash_write (dst : Nat) (src : Ptr) (size : Nat) (st : Nat) (w : World) : World :=
  controller_call (Event.flash_write dst src.off size) (program_bytes dst src (4 * size)) st w

/-! ## The source functions -/

/-- Source: `void flash_nrf5x_event_cb (uint32_t event)`:
`if ( _sem ) xSemaphoreGive(_sem);`. -/
def flash_nrf5x_event_cb (_event : Nat) (w : World) : World :=
  match w.sem with
  | none => w
  | some s => xSemaphoreGive s w

/-- Modelled from the spec: the controller completes the oldest pending
operation and the dispatcher hands the completion event `e` to the callback
registered for it, `flash_nrf5x_event_cb`. -/
def dispatch (e : Nat) (w : World) : World :=
  flash_nrf5x_event_cb e (complete_oldest w)

/-- Modelled from the spec: `xSemaphoreTake(_sem, portMAX_DELAY)`, an
"unbounded wait" for one unit.  With a unit available it is taken at once.
Otherwise the caller sleeps, and the completion events `evs` are dispatched
one at a time until a unit is there; with no event left the caller stays
blocked. -/
def xSemaphoreTake_wait : List Nat → World → Result Unit
  | [], w =>
    match w.sem with
    | none => .fault w
    | some s =>
      if 0 < s.count then
        .ret () { w with sem := some { s with count := s.count - 1 },
                         trace := w.trace ++ [Event.sem_take] }
      else .blocked w
  | e :: rest, w =>
    match w.sem with
    | none => .fault w
    | some s =>
      if 0 < s.count then
        .ret () { w with sem := some { s with count := s.count - 1 },
                         trace := w.trace ++ [Event.sem_take] }
      else xSemaphoreTake_wait rest (dispatch e { w with events := rest })

/-- The call `xSemaphoreTake(_sem, portMAX_DELAY)` in world `w`. -/
def xSemaphoreTake (w : World) : Result Unit := xSemaphoreTake_wait w.events w

/-- Source: the loop
`while ( NRF_ERROR_BUSY == (err = prim(args)) ) { delay(1); }`
run against the statuses of the script; the result is `err`. -/
def retry_busy (prim : Nat → World → World) : List Nat → World → Result Nat
  | [], w => .busy_forever w
  | st :: rest, w =>
    let w1 := prim st { w with script := rest }
    if st = NRF_ERROR_BUSY then retry_busy prim rest (delay 1 w1)
    else .ret st w1

/-- The retry loop started in world `w`. -/
def busy_loop (prim : Nat → World → World) (w : World) : Result Nat :=
  retry_busy prim w.script w

/-- Source: the statement `if ( sd_en ) xSemaphoreTake(_sem, portMAX_DELAY);`. -/
def wait_completion (sd_en : Nat) (w : World) : Result Unit :=
  if sd_en ≠ 0 then xSemaphoreTake w else .ret () w

/-- Source: the block `if ( _sem == NULL ) { _sem = xSemaphoreCreateCounting(10, 0); ... }`
at the head of `fal_erase`. -/
def init_semaphore (w : World) : World :=
  match w.sem with
  | none => xSemaphoreCreateCounting 10 0 w
  | some _ => w

/-- Source: `bool fal_erase (uint32_t addr)`.  `VERIFY(_sem)` returns `false`
on a `NULL` handle, `VERIFY_STATUS(err, false)` returns `false` on a status
other than `NRF_SUCCESS`. -/
def fal_erase (addr : Nat) (w : World) : Result Bool :=
  let w1 := init_semaphore w
  if w1.sem.isNone then .ret false w1
  else
    (busy_loop (sd_flash_page_erase (addr / FLASH_NRF52_PAGE_SIZE)) w1).bind fun err w2 =>
      if err ≠ NRF_SUCCESS then .ret false w2
      else
        let sd_en := w2.sd_en
        (wait_completion sd_en w2).bind fun _ w3 => .ret true w3

/-- Source: `static uint32_t fal_program (uint32_t dst, void const * src, uint32_t len)`.
The flag `nrf52832` is the compile-time switch `#if NRF52832_XXAA`;
`VERIFY_STATUS(err, 0)` returns `0` on a status other than `NRF_SUCCESS`. -/
def fal_program (nrf52832 : Bool) (dst : Nat) (src : Ptr) (len : Nat) (w : World) :
    Result Nat :=
  let sd_en := w.sd_en
  if nrf52832 then
    (busy_loop (sd_flash_write dst src (len / 4)) w).bind fun err w1 =>
      if err ≠ NRF_SUCCESS then .ret 0 w1
      else (wait_completion sd_en w1).bind fun _ w2 => .ret len w2
  else
    (busy_loop (sd_flash_write dst src (len / 8)) w).bind fun err w1 =>
      if err ≠ NRF_SUCCESS then .ret 0 w1
      else (wait_completion sd_en w1).bind fun _ w2 =>
        (busy_loop (sd_flash_write ((dst + len / 2) % U32) (src.add (len / 2)) (len / 8)) w2).bind
          fun err2 w3 =>
            if err2 ≠ NRF_SUCCESS then .ret 0 w3
            else (wait_completion sd_en w3).bind fun _ w4 => .ret len w4

/-- Source: `static uint32_t fal_read (void* dst, uint32_t src, uint32_t len)`:
`memcpy(dst, (void*) src, len); return len;`.  The result pairs the returned
count with the bytes copied to `dst`. -/
def fal_read (src : Nat) (len : Nat) (w : World) : Nat × List Nat :=
  (len, (List.range len).map fun i => w.mem ((src + i) % U32))

/-- Source: `static bool fal_verify (uint32_t addr, void const * buf, uint32_t len)`:
`return 0 == memcmp((void*) addr, buf, len);`. -/
def fal_verify (addr : Nat) (buf : Ptr) (len : Nat) (w : World) : Bool :=
  (List.range len).all fun i => w.mem ((addr + i) % U32) == buf.byte i

/-! ## Measures on traces and states -/

/-- The calls of `n` Busy rounds of the retry loop on the primitive call `ev`:
each round is the call followed by `delay(1)`. -/
def busy_trace (ev : Event) : Nat → List Event
  | 0 => []
  | n + 1 => ev :: Event.delay 1 :: busy_trace ev n

/-- Number of units of the semaphore acquired in a trace. -/
def takes (tr : List Event) : Nat := tr.count Event.sem_take

/-- Number of calls of `xSemaphoreGive` in a trace. -/
def gives (tr : List Event) : Nat := tr.count Event.sem_give

/-- Whether an event is a call of `xSemaphoreCreateCounting`. -/
def Event.isCreate : Event → Bool
  | .sem_create _ _ => true
  | _ => false

/-- Whether an event is a call of a flash primitive. -/
def Event.isPrimitive : Event → Bool
  | .page_erase _ => true
  | .flash_write _ _ _ => true
  | _ => false

/-- Number of semaphore constructions in a trace. -/
def creates (tr : List Event) : Nat := tr.countP Event.isCreate

/-- The count of the semaphore; a semaphore that does not exist holds no unit. -/
def sem_count (w : World) : Nat :=
  match w.sem with
  | none => 0
  | some s => s.count

/-- The units a caller can still obtain: those in the semaphore and those the
queued completion events will release. -/
def units (w : World) : Nat := sem_count w + w.events.length

/-- The waits of a call can finish `k` times: the stack is inactive (no wait
takes place), or the semaphore exists, can hold a unit, and `k` units are in it
or on their way. -/
def Avail (k : Nat) (w : World) : Prop :=
  w.sd_en = 0 ∨ ∃ s, w.sem = some s ∧ 0 < s.max ∧ k ≤ s.count + w.events.length

/-- What one `if ( sd_en ) xSemaphoreTake(...)` adds to the trace: nothing with
the stack inactive; otherwise one acquisition, preceded by the give of the
callback when the caller had to wait for it. -/
def WaitTrace (sd_en : Nat) (x : List Event) : Prop :=
  (sd_en = 0 ∧ x = []) ∨
  (sd_en ≠ 0 ∧ (x = [Event.sem_take] ∨ x = [Event.sem_give, Event.sem_take]))

/-- What a finished wait `if ( sd_en ) xSemaphoreTake(...)` leaves of the world
`w`; the trace grew by `x`.  With the stack inactive nothing happens.  With
the stack active and a unit in the semaphore (`stale`) the unit is taken at
once and the flash is as before; with no unit in it (`waited`) the caller
waits for one callback, before which the controller completed the oldest
pending operation. -/
structure Waited (w w1 : World) (x : List Event) : Prop where
  script : w1.script = w.script
  sd_en : w1.sd_en = w.sd_en
  heap_ok : w1.heap_ok = w.heap_ok
  trace : w1.trace = w.trace ++ x
  shape : WaitTrace w.sd_en x
  idle : w.sd_en = 0 → w1 = w
  active : w.sd_en ≠ 0 → units w1 + 1 = units w
  stale : w.sd_en ≠ 0 → 0 < sem_count w →
    w1.mem = w.mem ∧ w1.pending = w.pending ∧ x = [Event.sem_take] ∧
      sem_count w1 + 1 = sem_count w
  waited : w.sd_en ≠ 0 → sem_count w = 0 →
    w1.mem = (complete_oldest w).mem ∧ w1.pending = (complete_oldest w).pending ∧
      sem_count w1 = 0 ∧ x = [Event.sem_give, Event.sem_take]

/-- What any run of `xSemaphoreTake`, finished or not, leaves of the world. -/
structure TakeFrame (w w1 : World) : Prop where
  script : w1.script = w.script
  sd_en : w1.sd_en = w.sd_en
  heap_ok : w1.heap_ok = w.heap_ok
  trace : ∃ x, w1.trace = w.trace ++ x ∧ ∀ e ∈ x, e = Event.sem_take ∨ e = Event.sem_give
  sem_none : w.sem = none → w1.sem = none
  sem_some : ∀ s, w.sem = some s → ∃ s1, w1.sem = some s1 ∧ s1.max = s.max

/-- What any run of the retry loop on the primitive call `ev`, finished or
not, leaves of the world. -/
structure RetryFrame (ev : Event) (w w1 : World) : Prop where
  sem : w1.sem = w.sem
  events : w1.events = w.events
  sd_en : w1.sd_en = w.sd_en
  heap_ok : w1.heap_ok = w.heap_ok
  trace : ∃ x, w1.trace = w.trace ++ x ∧ ∀ e ∈ x, e = ev ∨ e = Event.delay 1

/-- The flash content once the controller has completed what it accepted: with
the stack active the pending operations take effect, oldest first; with the
stack inactive every operation is complete when its primitive returns, and
the flash is final as it is. -/
def settled (w : World) : Nat → Nat :=
  if w.sd_en = 0 then w.mem else w.pending.foldl (fun m op => op m) w.mem

/-- Nothing is outstanding at a call: no operation is pending and, with the
stack active, the semaphore holds no unit, so that a unit acquired in the call
is the completion of an operation of the call. -/
def Quiet (w : World) : Prop := w.pending = [] ∧ (w.sd_en = 0 ∨ sem_count w = 0)

/-- What one finished cycle "retry the primitive until it is not Busy, then
wait for the completion" leaves of the world `w`, when the primitive call
`ev` with flash effect `eff` succeeded after `n` Busy answers and `rest` is the
script left over.  With the stack inactive the effect is on the flash.  With
the stack active the operation joined the pending ones; the wait took a unit
that was in the semaphore (`stale`: no callback ran, the flash is as before),
or found none and waited for one callback, before which the controller
completed the oldest pending operation (`waited`). -/
structure Cycle (ev : Event) (eff : (Nat → Nat) → (Nat → Nat)) (n : Nat) (rest : List Nat)
    (w w1 : World) (x : List Event) : Prop where
  script : w1.script = rest
  sd_en : w1.sd_en = w.sd_en
  heap_ok : w1.heap_ok = w.heap_ok
  trace : w1.trace = w.trace ++ (busy_trace ev n ++ [ev]) ++ x
  shape : WaitTrace w.sd_en x
  idle : w.sd_en = 0 →
    w1.sem = w.sem ∧ w1.events = w.events ∧ w1.mem = eff w.mem ∧ w1.pending = w.pending
  active : w.sd_en ≠ 0 → units w1 + 1 = units w
  stale : w.sd_en ≠ 0 → 0 < sem_count w →
    w1.mem = w.mem ∧ w1.pending = w.pending ++ [eff] ∧ x = [Event.sem_take] ∧
      sem_count w1 + 1 = sem_count w
  waited : w.sd_en ≠ 0 → sem_count w = 0 →
    w1.mem = (complete_oldest { w with pending := w.pending ++ [eff] }).mem ∧
      w1.pending = (complete_oldest { w with pending := w.pending ++ [eff] }).pending ∧
      sem_count w1 = 0 ∧ x = [Event.sem_give, Event.sem_take]

/-- What every step of a call after the lazy construction preserves, finished
or not: the semaphore stays constructed with its capacity (or stays absent),
nothing constructs a semaphore, and with the stack inactive no unit is
acquired and neither the semaphore nor the event queue is touched. -/
structure Keeps (w w1 : World) : Prop where
  sem_some : ∀ s, w.sem = some s → ∃ s1, w1.sem = some s1 ∧ s1.max = s.max
  sem_none : w.sem = none → w1.sem = none
  sd_en : w1.sd_en = w.sd_en
  heap_ok : w1.heap_ok = w.heap_ok
  creates : creates w1.trace = creates w.trace
  grows : ∃ x, w1.trace = w.trace ++ x
  idle_takes : w.sd_en = 0 → takes w1.trace = takes w.trace
  idle_sem : w.sd_en = 0 → w1.sem = w.sem
  idle_events : w.sd_en = 0 → w1.events = w.events

/-- Whether the write call `e` reads byte `i` of the caller's buffer, the
buffer starting at offset `base` of its object. -/
def Event.covers (base : Nat) (e : Event) (i : Nat) : Prop :=
  match e with
  | .flash_write _ off size => off ≤ base + i ∧ base + i < off + 4 * size
  | _ => False

instance (base : Nat) (e : Event) (i : Nat) : Decidable (e.covers base i) := by
  cases e <;> simp only [Event.covers] <;> infer_instance

/-- One call into the file from outside. -/
inductive Call where
  | erase (addr : Nat)
  | program (dst : Nat) (src : Ptr) (len : Nat)
  | event_cb (event : Nat)

/-- The state a call leaves behind, whether it returned or not. -/
def Call.exec (nrf52832 : Bool) : Call → World → World
  | .erase addr, w => (fal_erase addr w).world
  | .program dst src len, w => (fal_program nrf52832 dst src len w).world
  | .event_cb event, w => flash_nrf5x_event_cb event w

/-- The state after a sequence of calls. -/
def run (nrf52832 : Bool) : List Call → World → World
  | [], w => w
  | c :: cs, w => run nrf52832 cs (c.exec nrf52832 w)

/-- Whether a call ended in `xSemaphoreTake(NULL, ...)`. -/
def Result.faulted {α : Type} : Result α → Bool
  | .fault _ => true
  | _ => false

/-! ## Concrete inputs -/

/-- A flash in the erased state throughout, the stack inactive, no semaphore
yet, and a controller that accepts the next two requests at once. -/
def erasedWorld : World :=
  { sem := none, mem := fun _ => ERASED, sd_en := 0, heap_ok := true,
    script := [NRF_SUCCESS, NRF_SUCCESS], pending := [], events := [], trace := [] }

/-- The world `erasedWorld` with the stack active, a semaphore of capacity 10
holding `c` units, and the completion events `evs` queued. -/
def activeWorld (c : Nat) (evs : List Nat) : World :=
  { erasedWorld with sem := some { max := 10, count := c }, sd_en := 1, events := evs }

/-- A flash programmed with zero bytes throughout, the stack active, no
semaphore yet, one completion event on its way, and a controller that accepts
the next two requests at once. -/
def programmedWorld : World :=
  { sem := none, mem := fun _ => 0, sd_en := 1, heap_ok := true,
    script := [NRF_SUCCESS, NRF_SUCCESS], pending := [], events := [2], trace := [] }

/-- The world `programmedWorld` with a semaphore that holds one unit, left by an
earlier callback, and no completion event on its way. -/
def staleWorld : World :=
  { programmedWorld with sem := some { max := 10, count := 1 }, events := [] }

/-- A buffer of `n` zero bytes. -/
def zeros (n : Nat) : List Nat := List.replicate n 0

/-- Source: the first write of the split path,
`sd_flash_write((uint32_t*) dst, (uint32_t const *) src, len/8)`. -/
def first_half_write (dst : Nat) (src : Ptr) (len : Nat) : Event :=
  Event.flash_write dst src.off (len / 8)

/-- Source: the second write of the split path,
`sd_flash_write((uint32_t*) (dst+ len/2), (uint32_t const *) (src + len/2), len/8)`. -/
def second_half_write (dst : Nat) (src : Ptr) (len : Nat) : Event :=
  Event.flash_write ((dst + len / 2) % U32) (src.off + len / 2) (len / 8)

/-- Source: the only write of the NRF52832 path,
`sd_flash_write((uint32_t*) dst, (uint32_t const *) src, len/4)`. -/
def whole_write (dst : Nat) (src : Ptr) (len : Nat) : Event :=
  Event.flash_write dst src.off (len / 4)

/-! ## The retry loop -/

theorem busy_ne_success : NRF_ERROR_BUSY ≠ NRF_SUCCESS := by decide

theorem retry_busy_cons_busy (prim : Nat → World → World) (rest : List Nat) (w : World) :
    retry_busy prim (NRF_ERROR_BUSY :: rest) w =
      retry_busy prim rest (delay 1 (prim NRF_ERROR_BUSY { w with script := rest })) := by
  simp [retry_busy]

theorem retry_busy_cons_done (prim : Nat → World → World) (r : Nat) (rest : List Nat)
    (w : World) (hr : r ≠ NRF_ERROR_BUSY) :
    retry_busy prim (r :: rest) w = .ret r (prim r { w with script := rest }) := by
  simp [retry_busy, hr]

theorem retry_busy_spec (ev : Event) (eff : (Nat → Nat) → (Nat → Nat)) (n r : Nat)
    (rest : List Nat) (hr : r ≠ NRF_ERROR_BUSY) (w : World) :
    retry_busy (controller_call ev eff) (List.replicate n NRF_ERROR_BUSY ++ r :: rest) w =
      .ret r { w with
        script := rest
        mem := if r = NRF_SUCCESS ∧ w.sd_en = 0 then eff w.mem else w.mem
        pending := if r = NRF_SUCCESS ∧ w.sd_en ≠ 0 then w.pending ++ [eff] else w.pending
        trace := w.trace ++ (busy_trace ev n ++ [ev]) } := by
  induction n generalizing w with
  | zero =>
    rw [List.replicate_zero, List.nil_append, retry_busy_cons_done _ _ _ _ hr]
    simp [controller_call, busy_trace]
  | succ n ih =>
    rw [List.replicate_succ, List.cons_append, retry_busy_cons_busy, ih]
    simp [controller_call, delay, busy_trace, busy_ne_success]

theorem retry_busy_exhausted (ev : Event) (eff : (Nat → Nat) → (Nat → Nat)) (n : Nat)
    (w : World) (hw : w.script = List.replicate n NRF_ERROR_BUSY) :
    retry_busy (controller_call ev eff) (List.replicate n NRF_ERROR_BUSY) w =
      .busy_forever { w with script := [], trace := w.trace ++ busy_trace ev n } := by
  induction n generalizing w with
  | zero =>
    cases w
    simp only [List.replicate_zero] at hw
    simp [retry_busy, busy_trace, hw]
  | succ n ih =>
    rw [List.replicate_succ, retry_busy_cons_busy, ih]
    · simp [controller_call, delay, busy_trace, busy_ne_success]
    · simp [controller_call, delay]

/-! ## Programming bytes -/

theorem erased_and_byte (v : Nat) : ERASED &&& (v % 256) = v % 256 := by
  have h := Nat.and_pow_two_sub_one_eq_mod (v % 256) 8
  rw [Nat.and_comm] at h
  simpa [ERASED] using h

theorem ptr_add_byte (src : Ptr) (j k : Nat) : (src.add j).byte k = src.byte (j + k) := by
  simp [Ptr.add, Ptr.byte, Nat.add_assoc]

theorem program_bytes_append (dst : Nat) (src : Ptr) (j k : Nat) (mem : Nat → Nat) :
    program_bytes ((dst + j) % U32) (src.add j) k (program_bytes dst src j mem) =
      program_bytes dst src (j + k) mem := by
  induction k with
  | zero => rfl
  | succ k ih =>
    have ha : ((dst + j) % U32 + k) % U32 = (dst + (j + k)) % U32 := by
      rw [Nat.mod_add_mod, Nat.add_assoc]
    show (fun x => _) = (fun x => _)
    funext x
    simp only [program_bytes, ih, ha, ptr_add_byte]
    rfl

theorem program_bytes_outside (dst : Nat) (src : Ptr) (n : Nat) (mem : Nat → Nat) (x : Nat)
    (hx : ∀ i, i < n → x ≠ (dst + i) % U32) : program_bytes dst src n mem x = mem x := by
  induction n with
  | zero => rfl
  | succ k ih =>
    have h1 : x ≠ (dst + k) % U32 := hx k (Nat.lt_succ_self k)
    have h2 := ih (fun i hi => hx i (Nat.lt_succ_of_lt hi))
    simp [program_bytes, h1, h2]

theorem program_bytes_at (dst : Nat) (src : Ptr) (n : Nat) (mem : Nat → Nat) (i : Nat)
    (hfit : dst + n ≤ U32) (hi : i < n) :
    program_bytes dst src n mem (dst + i) = mem (dst + i) &&& src.byte i := by
  induction n with
  | zero => omega
  | succ k ih =>
    have hk : (dst + k) % U32 = dst + k := Nat.mod_eq_of_lt (by omega)
    by_cases hik : i = k
    · subst hik
      have hout : program_bytes dst src i mem (dst + i) = mem (dst + i) := by
        apply program_bytes_outside
        intro j hj
        rw [Nat.mod_eq_of_lt (by omega)]
        omega
      simp [program_bytes, hk, hout]
    · have hne : dst + i ≠ dst + k := by omega
      simp only [program_bytes, hk, hne, if_false]
      exact ih (by omega) (by omega)

/-! ## Waiting on the semaphore -/

theorem take_now (evs : List Nat) (w : World) (s : Sem) (hs : w.sem = some s)
    (hc : 0 < s.count) :
    xSemaphoreTake_wait evs w =
      .ret () { w with sem := some { s with count := s.count - 1 },
                       trace := w.trace ++ [Event.sem_take] } := by
  cases evs <;> simp [xSemaphoreTake_wait, hs, hc]

theorem take_after_event (e : Nat) (rest : List Nat) (w : World) (s : Sem)
    (hs : w.sem = some s) (hc : s.count = 0) (hmax : 0 < s.max) :
    xSemaphoreTake_wait (e :: rest) w =
      .ret () { complete_oldest w with
        sem := some { s with count := 0 }
        events := rest
        trace := w.trace ++ [Event.sem_give, Event.sem_take] } := by
  obtain ⟨a1, a2, a3, a4, a5, pend, a7, a8⟩ := w
  simp only at hs
  subst hs
  obtain ⟨mx, ct⟩ := s
  simp only at hc hmax
  subst hc
  cases pend <;>
    simp only [xSemaphoreTake_wait, dispatch, complete_oldest, flash_nrf5x_event_cb,
      xSemaphoreGive, hmax, Nat.lt_irrefl, if_false, if_true, Nat.zero_add] <;>
    (rw [take_now rest _ { max := mx, count := 1 } rfl Nat.one_pos]; simp)

theorem units_eq (w : World) (s : Sem) (hs : w.sem = some s) :
    units w = s.count + w.events.length := by
  simp [units, sem_count, hs]

theorem complete_oldest_sem (w : World) : (complete_oldest w).sem = w.sem := by
  obtain ⟨a1, a2, a3, a4, a5, pend, a7, a8⟩ := w
  cases pend <;> rfl

theorem complete_oldest_frame (w : World) :
    (complete_oldest w).script = w.script ∧ (complete_oldest w).sd_en = w.sd_en ∧
      (complete_oldest w).heap_ok = w.heap_ok ∧ (complete_oldest w).trace = w.trace ∧
      (complete_oldest w).events = w.events := by
  obtain ⟨a1, a2, a3, a4, a5, pend, a7, a8⟩ := w
  cases pend <;> exact ⟨rfl, rfl, rfl, rfl, rfl⟩

theorem wait_completion_ok (k : Nat) (w : World) (h : Avail (k + 1) w) :
    ∃ w1 x, wait_completion w.sd_en w = .ret () w1 ∧ Waited w w1 x ∧ Avail k w1 := by
  by_cases hsd : w.sd_en = 0
  · refine ⟨w, [], by simp [wait_completion, hsd], ?_, Or.inl hsd⟩
    exact ⟨rfl, rfl, rfl, by simp, Or.inl ⟨hsd, rfl⟩, fun _ => rfl, fun h => absurd hsd h,
      fun h => absurd hsd h, fun h => absurd hsd h⟩
  · have hw : wait_completion w.sd_en w = xSemaphoreTake_wait w.events w := by
      simp [wait_completion, hsd, xSemaphoreTake]
    rw [hw]
    rcases h with h | ⟨s, hs, hmax, hu⟩
    · exact absurd h hsd
    · have hcnt : sem_count w = s.count := by simp [sem_count, hs]
      by_cases hc : 0 < s.count
      · refine ⟨_, [Event.sem_take], take_now _ w s hs hc, ?_, ?_⟩
        · refine ⟨rfl, rfl, rfl, rfl, Or.inr ⟨hsd, Or.inl rfl⟩, fun h => absurd h hsd, ?_,
            fun _ _ => ⟨rfl, rfl, rfl, by rw [hcnt]; simp only [sem_count]; omega⟩, ?_⟩
          · intro _
            rw [units_eq w s hs, units_eq _ { s with count := s.count - 1 } rfl]
            simp only
            omega
          · intro _ h0
            rw [hcnt] at h0
            omega
        · exact Or.inr ⟨{ s with count := s.count - 1 }, rfl, hmax, by simp only; omega⟩
      · have hc0 : s.count = 0 := by omega
        obtain ⟨f1, f2, f3, f4, f5⟩ := complete_oldest_frame w
        cases hev : w.events with
        | nil => rw [hev] at hu; simp at hu; omega
        | cons e rest =>
          refine ⟨_, [Event.sem_give, Event.sem_take],
            take_after_event e rest w s hs hc0 hmax, ?_, ?_⟩
          · refine ⟨f1, f2, f3, rfl, Or.inr ⟨hsd, Or.inr rfl⟩, fun h => absurd h hsd, ?_, ?_,
              fun _ _ => ⟨rfl, rfl, rfl, rfl⟩⟩
            · intro _
              rw [units_eq w s hs, units_eq _ { s with count := 0 } rfl, hev]
              simp only [List.length_cons]
              omega
            · intro _ h0
              rw [hcnt] at h0
              omega
          · refine Or.inr ⟨{ s with count := 0 }, rfl, hmax, ?_⟩
            rw [hev] at hu
            simp only [List.length_cons] at hu ⊢
            omega

theorem take_frame_refl (v : World) : TakeFrame v v :=
  ⟨rfl, rfl, rfl, ⟨[], by simp, by simp⟩, fun h => h, fun s hs => ⟨s, hs, rfl⟩⟩

theorem take_frame_take (v : World) (s : Sem) (hs : v.sem = some s) :
    TakeFrame v { v with sem := some { s with count := s.count - 1 },
                         trace := v.trace ++ [Event.sem_take] } :=
  ⟨rfl, rfl, rfl, ⟨[Event.sem_take], rfl, by simp⟩, fun h => by simp [hs] at h,
    fun t ht => ⟨_, rfl, by rw [hs] at ht; cases ht; rfl⟩⟩

theorem take_frame (evs : List Nat) (w : World) :
    TakeFrame w (xSemaphoreTake_wait evs w).world := by
  induction evs generalizing w with
  | nil =>
    cases hs : w.sem with
    | none => simpa [xSemaphoreTake_wait, hs, Result.world] using take_frame_refl w
    | some s =>
      by_cases hc : 0 < s.count
      · simpa [xSemaphoreTake_wait, hs, hc, Result.world] using take_frame_take w s hs
      · simpa [xSemaphoreTake_wait, hs, hc, Result.world] using take_frame_refl w
  | cons e rest ih =>
    cases hs : w.sem with
    | none => simpa [xSemaphoreTake_wait, hs, Result.world] using take_frame_refl w
    | some s =>
      by_cases hc : 0 < s.count
      · simpa [xSemaphoreTake_wait, hs, hc, Result.world] using take_frame_take w s hs
      · obtain ⟨f1, f2, f3, f4, _⟩ := complete_oldest_frame { w with events := rest }
        have hsem : (complete_oldest { w with events := rest }).sem = some s := by
          rw [complete_oldest_sem]; exact hs
        have hcb : dispatch e { w with events := rest } =
            { complete_oldest { w with events := rest } with
                     sem := some { s with count := if s.count < s.max then s.count + 1 else s.count }
                     trace := w.trace ++ [Event.sem_give] } := by
          simp [dispatch, flash_nrf5x_event_cb, hsem, xSemaphoreGive, f4]
        have h := ih (dispatch e { w with events := rest })
        have hgoal : xSemaphoreTake_wait (e :: rest) w =
            xSemaphoreTake_wait rest (dispatch e { w with events := rest }) := by
          rw [xSemaphoreTake_wait]
          simp only [hs, hc, if_false]
        rw [hgoal]
        obtain ⟨x, hx, hxs⟩ := h.trace
        refine ⟨h.script.trans ?_, h.sd_en.trans ?_, h.heap_ok.trans ?_,
          ⟨Event.sem_give :: x, ?_, ?_⟩, fun hn => by simp [hs] at hn, ?_⟩
        · rw [hcb]; exact f1
        · rw [hcb]; exact f2
        · rw [hcb]; exact f3
        · rw [hx, hcb]; simp
        · intro e he
          rcases List.mem_cons.mp he with rfl | he
          · exact Or.inr rfl
          · exact hxs e he
        · intro t ht
          rw [hs] at ht
          cases ht
          obtain ⟨s1, hs1, hm⟩ := h.sem_some
            { s with count := if s.count < s.max then s.count + 1 else s.count }
            (by rw [hcb])
          exact ⟨s1, hs1, hm⟩

theorem retry_frame (ev : Event) (eff : (Nat → Nat) → (Nat → Nat)) (sc : List Nat)
    (w : World) : RetryFrame ev w (retry_busy (controller_call ev eff) sc w).world := by
  induction sc generalizing w with
  | nil => exact ⟨rfl, rfl, rfl, rfl, ⟨[], by simp [retry_busy, Result.world], by simp⟩⟩
  | cons st rest ih =>
    by_cases hb : st = NRF_ERROR_BUSY
    · subst hb
      rw [retry_busy_cons_busy]
      have h := ih (delay 1 (controller_call ev eff NRF_ERROR_BUSY { w with script := rest }))
      obtain ⟨x, hx, hxs⟩ := h.trace
      refine ⟨h.sem, h.events, h.sd_en, h.heap_ok, ⟨ev :: Event.delay 1 :: x, ?_, ?_⟩⟩
      · rw [hx]; simp [delay, controller_call]
      · intro e he
        simp only [List.mem_cons] at he
        rcases he with rfl | rfl | he
        · exact Or.inl rfl
        · exact Or.inr rfl
        · exact hxs e he
    · rw [retry_busy_cons_done _ _ _ _ hb]
      exact ⟨rfl, rfl, rfl, rfl, ⟨[ev], rfl, by simp⟩⟩

theorem retry_ret_script (ev : Event) (eff : (Nat → Nat) → (Nat → Nat)) (sc : List Nat)
    (w w1 : World) (r : Nat)
    (h : retry_busy (controller_call ev eff) sc w = .ret r w1) :
    r ≠ NRF_ERROR_BUSY ∧ ∃ n rest, sc = List.replicate n NRF_ERROR_BUSY ++ r :: rest := by
  induction sc generalizing w with
  | nil => simp [retry_busy] at h
  | cons st rest ih =>
    by_cases hb : st = NRF_ERROR_BUSY
    · subst hb
      rw [retry_busy_cons_busy] at h
      obtain ⟨h1, n, rest1, h3⟩ := ih _ h
      refine ⟨h1, n + 1, rest1, ?_⟩
      rw [h3]; simp [List.replicate_succ]
    · rw [retry_busy_cons_done _ _ _ _ hb] at h
      injection h with hr hw
      subst hr
      exact ⟨hb, 0, rest, by simp⟩

/-! ## One retry-and-wait cycle -/

theorem busy_loop_spec (ev : Event) (eff : (Nat → Nat) → (Nat → Nat)) (n r : Nat)
    (rest : List Nat) (hr : r ≠ NRF_ERROR_BUSY) (w : World)
    (hw : w.script = List.replicate n NRF_ERROR_BUSY ++ r :: rest) :
    busy_loop (controller_call ev eff) w =
      .ret r { w with
        script := rest
        mem := if r = NRF_SUCCESS ∧ w.sd_en = 0 then eff w.mem else w.mem
        pending := if r = NRF_SUCCESS ∧ w.sd_en ≠ 0 then w.pending ++ [eff] else w.pending
        trace := w.trace ++ (busy_trace ev n ++ [ev]) } := by
  rw [busy_loop, hw, retry_busy_spec ev eff n r rest hr]

theorem success_ne_busy : NRF_SUCCESS ≠ NRF_ERROR_BUSY := by decide

theorem complete_oldest_congr (u v : World) (hm : u.mem = v.mem) (hp : u.pending = v.pending) :
    (complete_oldest u).mem = (complete_oldest v).mem ∧
      (complete_oldest u).pending = (complete_oldest v).pending := by
  obtain ⟨a1, a2, a3, a4, a5, pu, a7, a8⟩ := u
  obtain ⟨b1, b2, b3, b4, b5, pv, b7, b8⟩ := v
  simp only at hm hp
  subst hm
  subst hp
  cases pu <;> exact ⟨rfl, rfl⟩

theorem cycle_ok (ev : Event) (eff : (Nat → Nat) → (Nat → Nat)) (n : Nat) (rest : List Nat)
    (w : World) (hw : w.script = List.replicate n NRF_ERROR_BUSY ++ NRF_SUCCESS :: rest)
    (k : Nat) (ha : Avail (k + 1) w) :
    ∃ w1 w2 x, busy_loop (controller_call ev eff) w = .ret NRF_SUCCESS w1 ∧
      wait_completion w.sd_en w1 = .ret () w2 ∧ Cycle ev eff n rest w w2 x ∧ Avail k w2 := by
  have h1 := busy_loop_spec ev eff n NRF_SUCCESS rest success_ne_busy w hw
  have ha1 : Avail (k + 1) { w with
      script := rest
      mem := if NRF_SUCCESS = NRF_SUCCESS ∧ w.sd_en = 0 then eff w.mem else w.mem
      pending := if NRF_SUCCESS = NRF_SUCCESS ∧ w.sd_en ≠ 0 then w.pending ++ [eff]
        else w.pending
      trace := w.trace ++ (busy_trace ev n ++ [ev]) } := ha
  obtain ⟨w2, x, h2, hwt, ha2⟩ := wait_completion_ok k _ ha1
  refine ⟨_, w2, x, h1, h2, ?_, ha2⟩
  refine ⟨hwt.script, hwt.sd_en, hwt.heap_ok, ?_, hwt.shape, ?_, ?_, ?_, ?_⟩
  · rw [hwt.trace]
  · intro h0
    have := hwt.idle h0
    rw [this]
    simp [h0]
  · intro h0
    have := hwt.active h0
    rw [this]
    rfl
  · intro h0 hc
    obtain ⟨e1, e2, e3, e4⟩ := hwt.stale h0 hc
    refine ⟨?_, ?_, e3, e4⟩
    · rw [e1]; simp [h0]
    · rw [e2]; simp [h0]
  · intro h0 hc
    obtain ⟨e1, e2, e3, e4⟩ := hwt.waited h0 hc
    obtain ⟨c1, c2⟩ := complete_oldest_congr
      { w with
        script := rest
        mem := if NRF_SUCCESS = NRF_SUCCESS ∧ w.sd_en = 0 then eff w.mem else w.mem
        pending := if NRF_SUCCESS = NRF_SUCCESS ∧ w.sd_en ≠ 0 then w.pending ++ [eff]
          else w.pending
        trace := w.trace ++ (busy_trace ev n ++ [ev]) }
      { w with pending := w.pending ++ [eff] } (by simp [h0]) (by simp [h0])
    exact ⟨e1.trans c1, e2.trans c2, e3, e4⟩

theorem complete_oldest_single (w : World) (eff : (Nat → Nat) → (Nat → Nat))
    (hp : w.pending = []) :
    (complete_oldest { w with pending := w.pending ++ [eff] }).mem = eff w.mem ∧
      (complete_oldest { w with pending := w.pending ++ [eff] }).pending = [] := by
  rw [hp]
  exact ⟨rfl, rfl⟩

theorem cycle_quiet (ev : Event) (eff : (Nat → Nat) → (Nat → Nat)) (n : Nat) (rest : List Nat)
    (w w1 : World) (x : List Event) (hc : Cycle ev eff n rest w w1 x) (hq : Quiet w) :
    w1.mem = eff w.mem ∧ Quiet w1 := by
  obtain ⟨hp, hq2⟩ := hq
  by_cases h0 : w.sd_en = 0
  · obtain ⟨_, _, e3, e4⟩ := hc.idle h0
    exact ⟨e3, by rw [e4]; exact hp, Or.inl (by rw [hc.sd_en]; exact h0)⟩
  · have hcnt : sem_count w = 0 := by
      rcases hq2 with h | h
      · exact absurd h h0
      · exact h
    obtain ⟨e1, e2, e3, _⟩ := hc.waited h0 hcnt
    obtain ⟨c1, c2⟩ := complete_oldest_single w eff hp
    exact ⟨e1.trans c1, e2.trans c2, Or.inr e3⟩

theorem settled_complete_oldest (w : World) (h0 : w.sd_en ≠ 0) :
    settled (complete_oldest w) = settled w := by
  obtain ⟨a1, a2, a3, a4, a5, pend, a7, a8⟩ := w
  simp only at h0
  cases pend <;> simp [settled, complete_oldest, h0]

theorem settled_congr (u v : World) (hm : u.mem = v.mem) (hp : u.pending = v.pending)
    (hs : u.sd_en = v.sd_en) : settled u = settled v := by
  unfold settled
  rw [hm, hp, hs]

theorem settled_quiet (w : World) (hq : Quiet w) : settled w = w.mem := by
  unfold settled
  rw [hq.1]
  simp

theorem cycle_settled (ev : Event) (eff : (Nat → Nat) → (Nat → Nat)) (n : Nat) (rest : List Nat)
    (w w1 : World) (x : List Event) (hc : Cycle ev eff n rest w w1 x) :
    settled w1 = eff (settled w) := by
  by_cases h0 : w.sd_en = 0
  · obtain ⟨_, _, e3, _⟩ := hc.idle h0
    have h1 : w1.sd_en = 0 := by rw [hc.sd_en]; exact h0
    simp [settled, h0, h1, e3]
  · have happ : settled { w with pending := w.pending ++ [eff] } = eff (settled w) := by
      simp [settled, h0, List.foldl_append]
    by_cases hcnt : 0 < sem_count w
    · obtain ⟨e1, e2, _, _⟩ := hc.stale h0 hcnt
      rw [← happ]
      exact settled_congr _ _ e1 e2 hc.sd_en
    · obtain ⟨e1, e2, _, _⟩ := hc.waited h0 (by omega)
      rw [← happ, ← settled_complete_oldest { w with pending := w.pending ++ [eff] } h0]
      refine settled_congr _ _ e1 e2 ?_
      rw [hc.sd_en]
      exact ((complete_oldest_frame { w with pending := w.pending ++ [eff] }).2.1).symm

theorem fal_erase_ok (addr : Nat) (w : World) (s : Sem) (n : Nat) (rest : List Nat)
    (hs : (init_semaphore w).sem = some s)
    (hw : w.script = List.replicate n NRF_ERROR_BUSY ++ NRF_SUCCESS :: rest)
    (k : Nat) (ha : Avail (k + 1) (init_semaphore w)) :
    ∃ w1 x, fal_erase addr w = .ret true w1 ∧
      Cycle (Event.page_erase (addr / FLASH_NRF52_PAGE_SIZE))
        (erase_page (addr / FLASH_NRF52_PAGE_SIZE)) n rest (init_semaphore w) w1 x ∧
      Avail k w1 := by
  have hw1 : (init_semaphore w).script =
      List.replicate n NRF_ERROR_BUSY ++ NRF_SUCCESS :: rest := by
    rw [← hw]; unfold init_semaphore; cases w.sem <;> rfl
  obtain ⟨w1, w2, x, h1, h2, hc, ha2⟩ := cycle_ok (Event.page_erase (addr / FLASH_NRF52_PAGE_SIZE))
    (erase_page (addr / FLASH_NRF52_PAGE_SIZE)) n rest _ hw1 k ha
  have hsd : w1.sd_en = (init_semaphore w).sd_en := by
    have := busy_loop_spec (Event.page_erase (addr / FLASH_NRF52_PAGE_SIZE))
      (erase_page (addr / FLASH_NRF52_PAGE_SIZE)) n NRF_SUCCESS rest success_ne_busy _ hw1
    rw [this] at h1
    injection h1 with _ h1
    rw [← h1]
  refine ⟨w2, x, ?_, hc, ha2⟩
  have h1p : busy_loop (sd_flash_page_erase (addr / FLASH_NRF52_PAGE_SIZE)) (init_semaphore w) =
      .ret NRF_SUCCESS w1 := h1
  simp only [fal_erase, hs, Option.isNone_some, h1p, Result.bind, hsd, h2]
  simp

/-! ## `fal_program` when the controller accepts every write -/

theorem fal_program_832_ok (dst : Nat) (src : Ptr) (len : Nat) (w : World) (n : Nat)
    (rest : List Nat)
    (hw : w.script = List.replicate n NRF_ERROR_BUSY ++ NRF_SUCCESS :: rest)
    (k : Nat) (ha : Avail (k + 1) w) :
    ∃ w1 x, fal_program true dst src len w = .ret len w1 ∧
      Cycle (Event.flash_write dst src.off (len / 4))
        (program_bytes dst src (4 * (len / 4))) n rest w w1 x ∧
      Avail k w1 := by
  obtain ⟨w1, w2, x, h1, h2, hc, ha2⟩ := cycle_ok (Event.flash_write dst src.off (len / 4))
    (program_bytes dst src (4 * (len / 4))) n rest w hw k ha
  refine ⟨w2, x, ?_, hc, ha2⟩
  have h1p : busy_loop (sd_flash_write dst src (len / 4)) w = .ret NRF_SUCCESS w1 := h1
  simp only [fal_program, if_true, h1p, Result.bind, h2]
  simp

theorem fal_program_split_ok (dst : Nat) (src : Ptr) (len : Nat) (w : World) (n1 n2 : Nat)
    (rest : List Nat)
    (hw : w.script = List.replicate n1 NRF_ERROR_BUSY ++ NRF_SUCCESS ::
      (List.replicate n2 NRF_ERROR_BUSY ++ NRF_SUCCESS :: rest))
    (k : Nat) (ha : Avail (k + 2) w) :
    ∃ w1 w2 x1 x2, fal_program false dst src len w = .ret len w2 ∧
      Cycle (Event.flash_write dst src.off (len / 8))
        (program_bytes dst src (4 * (len / 8))) n1
        (List.replicate n2 NRF_ERROR_BUSY ++ NRF_SUCCESS :: rest) w w1 x1 ∧
      Cycle (Event.flash_write ((dst + len / 2) % U32) (src.off + len / 2) (len / 8))
        (program_bytes ((dst + len / 2) % U32) (src.add (len / 2)) (4 * (len / 8))) n2
        rest w1 w2 x2 ∧
      Avail k w2 := by
  obtain ⟨v1, w1, x1, h1, h2, hc1, ha1⟩ := cycle_ok (Event.flash_write dst src.off (len / 8))
    (program_bytes dst src (4 * (len / 8))) n1 _ w hw (k + 1) ha
  obtain ⟨v2, w2, x2, h3, h4, hc2, ha2⟩ := cycle_ok
    (Event.flash_write ((dst + len / 2) % U32) (src.off + len / 2) (len / 8))
    (program_bytes ((dst + len / 2) % U32) (src.add (len / 2)) (4 * (len / 8))) n2 rest w1
    hc1.script k ha1
  refine ⟨w1, w2, x1, x2, ?_, hc1, hc2, ha2⟩
  have h1p : busy_loop (sd_flash_write dst src (len / 8)) w = .ret NRF_SUCCESS v1 := h1
  have h3p : busy_loop (sd_flash_write ((dst + len / 2) % U32) (src.add (len / 2)) (len / 8)) w1 =
      .ret NRF_SUCCESS v2 := h3
  rw [hc1.sd_en] at h4
  simp only [fal_program, Bool.false_eq_true, if_false, h1p, Result.bind, h2, h3p, h4]
  simp

/-! ## What every call preserves -/

theorem takes_of_no_take (x : List Event) (h : ∀ e ∈ x, e ≠ Event.sem_take) : takes x = 0 := by
  unfold takes
  rw [List.count_eq_zero]
  intro hm
  exact h _ hm rfl

theorem creates_of_no_create (x : List Event) (h : ∀ e ∈ x, e.isCreate = false) :
    creates x = 0 := by
  unfold creates
  rw [List.countP_eq_zero]
  intro e he
  simp [h e he]

theorem takes_append (x y : List Event) : takes (x ++ y) = takes x + takes y := by
  simp [takes, List.count_append]

theorem creates_append (x y : List Event) : creates (x ++ y) = creates x + creates y := by
  simp [creates, List.countP_append]

theorem keeps_refl (w : World) : Keeps w w :=
  ⟨fun s hs => ⟨s, hs, rfl⟩, fun h => h, rfl, rfl, rfl, ⟨[], by simp⟩, fun _ => rfl, fun _ => rfl,
    fun _ => rfl⟩

theorem keeps_trans (a b c : World) (h1 : Keeps a b) (h2 : Keeps b c) : Keeps a c := by
  have hsd : b.sd_en = 0 ↔ a.sd_en = 0 := by rw [h1.sd_en]
  refine ⟨?_, fun h => h2.sem_none (h1.sem_none h), h2.sd_en.trans h1.sd_en,
    h2.heap_ok.trans h1.heap_ok, h2.creates.trans h1.creates, ?_,
    fun h => (h2.idle_takes (hsd.mpr h)).trans (h1.idle_takes h),
    fun h => (h2.idle_sem (hsd.mpr h)).trans (h1.idle_sem h),
    fun h => (h2.idle_events (hsd.mpr h)).trans (h1.idle_events h)⟩
  · intro s hs
    obtain ⟨s1, hs1, hm1⟩ := h1.sem_some s hs
    obtain ⟨s2, hs2, hm2⟩ := h2.sem_some s1 hs1
    exact ⟨s2, hs2, hm2.trans hm1⟩
  · obtain ⟨x, hx⟩ := h1.grows
    obtain ⟨y, hy⟩ := h2.grows
    exact ⟨x ++ y, by rw [hy, hx, List.append_assoc]⟩

theorem keeps_bind {α β : Type} (w : World) (r : Result α) (f : α → World → Result β)
    (h1 : Keeps w r.world) (h2 : ∀ v w1, r = .ret v w1 → Keeps w1 (f v w1).world) :
    Keeps w (r.bind f).world := by
  cases r with
  | ret v w1 => exact keeps_trans _ _ _ h1 (h2 v w1 rfl)
  | busy_forever w1 => exact h1
  | blocked w1 => exact h1
  | fault w1 => exact h1

theorem keeps_retry (ev : Event) (eff : (Nat → Nat) → (Nat → Nat)) (w : World)
    (hev : ev ≠ Event.sem_take) (hev2 : ev.isCreate = false) :
    Keeps w (busy_loop (controller_call ev eff) w).world := by
  have h := retry_frame ev eff w.script w
  obtain ⟨x, hx, hxs⟩ := h.trace
  have ht : takes x = 0 := by
    apply takes_of_no_take
    intro e he
    rcases hxs e he with rfl | rfl
    · exact hev
    · simp
  have hc : creates x = 0 := by
    apply creates_of_no_create
    intro e he
    rcases hxs e he with rfl | rfl
    · exact hev2
    · rfl
  unfold busy_loop
  refine ⟨fun s hs => ⟨s, by rw [h.sem, hs], rfl⟩, fun hn => by rw [h.sem, hn], h.sd_en,
    h.heap_ok, ?_, ⟨x, hx⟩, fun _ => ?_, fun _ => h.sem, fun _ => h.events⟩
  · rw [hx, creates_append, hc]; rfl
  · rw [hx, takes_append, ht]; rfl

theorem keeps_wait (sd : Nat) (w : World) (hsd : sd = w.sd_en) :
    Keeps w (wait_completion sd w).world := by
  by_cases h0 : sd = 0
  · simpa [wait_completion, h0, Result.world] using keeps_refl w
  · have hw : wait_completion sd w = xSemaphoreTake_wait w.events w := by
      simp [wait_completion, h0, xSemaphoreTake]
    rw [hw]
    have h := take_frame w.events w
    obtain ⟨x, hx, hxs⟩ := h.trace
    have hc : creates x = 0 := by
      apply creates_of_no_create
      intro e he
      rcases hxs e he with rfl | rfl <;> rfl
    have hne : ¬ w.sd_en = 0 := by rw [← hsd]; exact h0
    refine ⟨h.sem_some, h.sem_none, h.sd_en, h.heap_ok, ?_, ⟨x, hx⟩, fun h1 => absurd h1 hne,
      fun h1 => absurd h1 hne, fun h1 => absurd h1 hne⟩
    rw [hx, creates_append, hc]; rfl

theorem keeps_cycle {α : Type} (ev : Event) (eff : (Nat → Nat) → (Nat → Nat)) (sd : Nat)
    (fail : α) (cont : World → Result α) (w : World) (hsd : sd = w.sd_en)
    (hev : ev ≠ Event.sem_take) (hev2 : ev.isCreate = false)
    (hcont : ∀ w2, w2.sd_en = w.sd_en → Keeps w2 (cont w2).world) :
    Keeps w ((busy_loop (controller_call ev eff) w).bind fun err w1 =>
      if err ≠ NRF_SUCCESS then .ret fail w1
      else (wait_completion sd w1).bind fun _ w2 => cont w2).world := by
  apply keeps_bind _ _ _ (keeps_retry ev eff w hev hev2)
  intro err w1 hr
  have hk1 : Keeps w w1 := by
    have := keeps_retry ev eff w hev hev2
    rw [hr] at this
    exact this
  by_cases he : err ≠ NRF_SUCCESS
  · simpa [he, Result.world] using keeps_refl w1
  · simp only [he, if_false]
    apply keeps_bind _ _ _ (keeps_wait sd w1 (by rw [hsd, hk1.sd_en]))
    intro _ w2 hr2
    have hk2 : Keeps w1 w2 := by
      have := keeps_wait sd w1 (by rw [hsd, hk1.sd_en])
      rw [hr2] at this
      exact this
    exact hcont w2 (by rw [hk2.sd_en, hk1.sd_en])

theorem keeps_program (b : Bool) (dst : Nat) (src : Ptr) (len : Nat) (w : World) :
    Keeps w (fal_program b dst src len w).world := by
  cases b with
  | true =>
    simp only [fal_program, if_true]
    exact keeps_cycle _ _ _ _ (fun w2 => .ret len w2) w rfl (by simp) rfl
      (fun w2 _ => keeps_refl w2)
  | false =>
    simp only [fal_program, Bool.false_eq_true, if_false]
    refine keeps_cycle _ _ _ _ _ w rfl (by simp) rfl ?_
    intro w2 h2
    exact keeps_cycle _ _ _ _ (fun w4 => .ret len w4) w2 h2.symm (by simp) rfl
      (fun w4 _ => keeps_refl w4)

theorem wait_frame (sd : Nat) (w : World) : TakeFrame w (wait_completion sd w).world := by
  by_cases h0 : sd = 0
  · simpa [wait_completion, h0, Result.world] using take_frame_refl w
  · have hw : wait_completion sd w = xSemaphoreTake_wait w.events w := by
      simp [wait_completion, h0, xSemaphoreTake]
    rw [hw]
    exact take_frame w.events w

theorem fal_erase_unfold (addr : Nat) (w : World) (s : Sem)
    (hs : (init_semaphore w).sem = some s) :
    fal_erase addr w =
      (busy_loop (controller_call (Event.page_erase (addr / FLASH_NRF52_PAGE_SIZE))
          (erase_page (addr / FLASH_NRF52_PAGE_SIZE))) (init_semaphore w)).bind fun err w2 =>
        if err ≠ NRF_SUCCESS then .ret false w2
        else (wait_completion w2.sd_en w2).bind fun _ w3 => .ret true w3 := by
  simp only [fal_erase, hs, Option.isNone_some]
  rfl

theorem fal_erase_failed_init (addr : Nat) (w : World) (hs : (init_semaphore w).sem = none) :
    fal_erase addr w = .ret false (init_semaphore w) := by
  simp [fal_erase, hs]

theorem keeps_erase_body (addr : Nat) (w : World) :
    Keeps (init_semaphore w) (fal_erase addr w).world := by
  cases hs : (init_semaphore w).sem with
  | none => rw [fal_erase_failed_init addr w hs]; exact keeps_refl _
  | some s =>
    rw [fal_erase_unfold addr w s hs]
    apply keeps_bind _ _ _ (keeps_retry (Event.page_erase (addr / FLASH_NRF52_PAGE_SIZE))
      (erase_page (addr / FLASH_NRF52_PAGE_SIZE)) (init_semaphore w) (by simp) rfl)
    intro err w1 hr
    by_cases he : err ≠ NRF_SUCCESS
    · simpa [he, Result.world] using keeps_refl w1
    · simp only [he, if_false]
      apply keeps_bind _ _ _ (keeps_wait _ w1 rfl)
      intro _ w2 _
      exact keeps_refl w2

/-! ## Program, then read and verify -/

theorem ofList_byte (B : List Nat) (i : Nat) (hi : i < B.length) (hb : ∀ b ∈ B, b < 256) :
    (Ptr.ofList B).byte i = B[i] := by
  have h1 : B.getD i 0 = B[i] := by simp [List.getD, hi]
  have h2 : B[i] < 256 := hb _ (List.getElem_mem hi)
  simp only [Ptr.ofList, Ptr.byte, Nat.zero_add, h1]
  exact Nat.mod_eq_of_lt h2

theorem read_verify_of_programmed (D : Nat) (B : List Nat) (w w1 : World)
    (hbytes : ∀ b ∈ B, b < 256) (hfit : D + B.length ≤ U32)
    (herased : ∀ i, i < B.length → w.mem (D + i) = ERASED)
    (hmem : w1.mem = program_bytes D (Ptr.ofList B) B.length w.mem) :
    fal_read D B.length w1 = (B.length, B) ∧
      fal_verify D (Ptr.ofList B) B.length w1 = true := by
  have key : ∀ i (hi : i < B.length), w1.mem ((D + i) % U32) = B[i] := by
    intro i hi
    rw [Nat.mod_eq_of_lt (by omega), hmem, program_bytes_at D _ _ _ i hfit hi, herased i hi]
    have hb : (Ptr.ofList B).byte i = (Ptr.ofList B).obj ((Ptr.ofList B).off + i) % 256 := rfl
    rw [hb, erased_and_byte, ← hb, ofList_byte B i hi hbytes]
  constructor
  · unfold fal_read
    congr 1
    apply List.ext_getElem
    · simp
    · intro i h1 h2
      simp only [List.getElem_map, List.getElem_range]
      exact key i h2
  · unfold fal_verify
    rw [List.all_eq_true]
    intro i hi
    have hi2 : i < B.length := List.mem_range.mp hi
    rw [key i hi2, ofList_byte B i hi2 hbytes]
    simp

/-- C1, as stated, fails: with the whole flash erased and every write accepted
at once, `fal_program` of nine zero bytes on the split path returns 9, yet the
ninth byte is still 0xFF, so the read differs from the buffer and the verify
fails; the same happens to five bytes on the NRF52832 path.  With the stack
active and no completion event on its way the call does not return at all,
although the controller accepts the write.  And with the stack active and a
unit left in the semaphore the call returns 8 at once, before the write is
complete: the flash still reads 0xFF. -/
theorem program_roundtrip_fails_off_word_multiple :
    (∀ a, erasedWorld.mem a = ERASED) ∧
    (fal_program false 4096 (Ptr.ofList (zeros 9)) 9 erasedWorld).value = some 9 ∧
    fal_read 4096 9 (fal_program false 4096 (Ptr.ofList (zeros 9)) 9 erasedWorld).world
      = (9, [0, 0, 0, 0, 0, 0, 0, 0, 255]) ∧
    (fal_read 4096 9 (fal_program false 4096 (Ptr.ofList (zeros 9)) 9 erasedWorld).world).2
      ≠ zeros 9 ∧
    fal_verify 4096 (Ptr.ofList (zeros 9)) 9
      (fal_program false 4096 (Ptr.ofList (zeros 9)) 9 erasedWorld).world = false ∧
    (fal_program true 4096 (Ptr.ofList (zeros 5)) 5 erasedWorld).value = some 5 ∧
    (fal_read 4096 5 (fal_program true 4096 (Ptr.ofList (zeros 5)) 5 erasedWorld).world).2
      ≠ zeros 5 ∧
    fal_verify 4096 (Ptr.ofList (zeros 5)) 5
      (fal_program true 4096 (Ptr.ofList (zeros 5)) 5 erasedWorld).world = false ∧
    (activeWorld 0 []).script = [NRF_SUCCESS, NRF_SUCCESS] ∧
    (fal_program true 4096 (Ptr.ofList (zeros 8)) 8 (activeWorld 0 [])).value = none ∧
    (fal_program true 4096 (Ptr.ofList (zeros 8)) 8 (activeWorld 1 [])).value = some 8 ∧
    fal_read 4096 8 (fal_program true 4096 (Ptr.ofList (zeros 8)) 8 (activeWorld 1 [])).world
      = (8, [255, 255, 255, 255, 255, 255, 255, 255]) ∧
    fal_verify 4096 (Ptr.ofList (zeros 8)) 8
      (fal_program true 4096 (Ptr.ofList (zeros 8)) 8 (activeWorld 1 [])).world = false := by
  refine ⟨fun _ => rfl, ?_, ?_, ?_, ?_, ?_, ?_, ?_, ?_, ?_, ?_, ?_, ?_⟩ <;> decide

/-- C1, amended: let `B` be a buffer of bytes whose length is a multiple of 8
(of 4 on the NRF52832 path), let `D` be a 32-bit address with `[D, D + len)`
inside the erased page `p`, let every write succeed after finitely many Busy
answers, let no operation be pending at the call and, with the stack active,
let the semaphore hold no unit at the call and the completion of every write
arrive.  Then `fal_program` returns `len`, a following `fal_read` of `len`
bytes at `D` yields exactly `B`, and `fal_verify` returns true. -/
theorem program_read_verify_roundtrip (nrf52832 : Bool) (D : Nat) (B : List Nat) (p : Nat)
    (w : World) (n1 n2 : Nat) (rest : List Nat)
    (hbytes : ∀ b ∈ B, b < 256)
    (hlen : B.length % (if nrf52832 then 4 else 8) = 0)
    (hlo : p * FLASH_NRF52_PAGE_SIZE ≤ D)
    (hhi : D + B.length ≤ (p + 1) * FLASH_NRF52_PAGE_SIZE)
    (hD : D < U32)
    (herased : ∀ a, p * FLASH_NRF52_PAGE_SIZE ≤ a → a < (p + 1) * FLASH_NRF52_PAGE_SIZE →
      w.mem a = ERASED)
    (hscript : w.script =
      if nrf52832 then List.replicate n1 NRF_ERROR_BUSY ++ NRF_SUCCESS :: rest
      else List.replicate n1 NRF_ERROR_BUSY ++ NRF_SUCCESS ::
        (List.replicate n2 NRF_ERROR_BUSY ++ NRF_SUCCESS :: rest))
    (hq : Quiet w)
    (hav : Avail (if nrf52832 then 1 else 2) w) :
    ∃ w1, fal_program nrf52832 D (Ptr.ofList B) B.length w = .ret B.length w1 ∧
      fal_read D B.length w1 = (B.length, B) ∧
      fal_verify D (Ptr.ofList B) B.length w1 = true := by
  have hfit : D + B.length ≤ U32 := by
    simp only [FLASH_NRF52_PAGE_SIZE, U32] at hlo hhi hD ⊢
    omega
  have her : ∀ i, i < B.length → w.mem (D + i) = ERASED :=
    fun i hi => herased _ (by omega) (by omega)
  cases nrf52832 with
  | true =>
    simp only [if_true] at hlen hscript hav
    obtain ⟨w1, x, h1, hc, _⟩ := fal_program_832_ok D (Ptr.ofList B) B.length w n1 rest hscript 0 hav
    refine ⟨w1, h1, read_verify_of_programmed D B w w1 hbytes hfit her ?_⟩
    have h4 : 4 * (B.length / 4) = B.length := by omega
    rw [(cycle_quiet _ _ _ _ _ _ _ hc hq).1, h4]
  | false =>
    simp only [Bool.false_eq_true, if_false] at hlen hscript hav
    obtain ⟨w1, w2, x1, x2, h1, hc1, hc2, _⟩ :=
      fal_program_split_ok D (Ptr.ofList B) B.length w n1 n2 rest hscript 0 hav
    refine ⟨w2, h1, read_verify_of_programmed D B w w2 hbytes hfit her ?_⟩
    obtain ⟨m1, q1⟩ := cycle_quiet _ _ _ _ _ _ _ hc1 hq
    obtain ⟨m2, _⟩ := cycle_quiet _ _ _ _ _ _ _ hc2 q1
    have h4 : 4 * (B.length / 8) = B.length / 2 := by omega
    have h2 : B.length / 2 + B.length / 2 = B.length := by omega
    rw [m2, m1, h4, program_bytes_append, h2]

theorem program_read_verify_roundtrip_witness :
    ∃ w1, fal_program false 4096 (Ptr.ofList (zeros 8)) (zeros 8).length (activeWorld 0 [2, 2])
        = .ret (zeros 8).length w1 ∧
      fal_read 4096 (zeros 8).length w1 = ((zeros 8).length, zeros 8) ∧
      fal_verify 4096 (Ptr.ofList (zeros 8)) (zeros 8).length w1 = true :=
  program_read_verify_roundtrip false 4096 (zeros 8) 1 (activeWorld 0 [2, 2]) 0 0 []
    (by decide) (by decide) (by decide) (by decide) (by decide) (fun _ _ _ => rfl) rfl
    ⟨rfl, Or.inr rfl⟩ (Or.inr ⟨_, rfl, by decide, by decide⟩)

/-! ## The split write -/

theorem covers_first (dst : Nat) (src : Ptr) (len i : Nat) :
    (first_half_write dst src len).covers src.off i ↔ i < 4 * (len / 8) := by
  simp only [first_half_write, Event.covers]
  omega

theorem covers_second (dst : Nat) (src : Ptr) (len i : Nat) :
    (second_half_write dst src len).covers src.off i ↔
      len / 2 ≤ i ∧ i < len / 2 + 4 * (len / 8) := by
  simp only [second_half_write, Event.covers]
  omega

/-- C2, as stated, fails: a program of 9 bytes on the split path issues the
writes `(4096, src, 1 word)` and `(4100, src + 4, 1 word)`, which leave byte 8
of the buffer to neither half. -/
theorem split_write_not_a_partition :
    (fal_program false 4096 (Ptr.ofList (zeros 9)) 9 erasedWorld).value = some 9 ∧
    (fal_program false 4096 (Ptr.ofList (zeros 9)) 9 erasedWorld).world.trace =
      [first_half_write 4096 (Ptr.ofList (zeros 9)) 9,
       second_half_write 4096 (Ptr.ofList (zeros 9)) 9] ∧
    first_half_write 4096 (Ptr.ofList (zeros 9)) 9 = Event.flash_write 4096 0 1 ∧
    second_half_write 4096 (Ptr.ofList (zeros 9)) 9 = Event.flash_write 4100 4 1 ∧
    ¬ (first_half_write 4096 (Ptr.ofList (zeros 9)) 9).covers 0 8 ∧
    ¬ (second_half_write 4096 (Ptr.ofList (zeros 9)) 9).covers 0 8 := by
  refine ⟨by decide, by decide, by decide, by decide, by decide, by decide⟩

/-- C2, amended: on the non-NRF52832 path, when `len` is a multiple of 8 and
both writes succeed, `fal_program(dst, src, len)` returns `len` and issues two
write sub-calls (each repeated while Busy), the first at `(dst, src)` and the
second at `(dst + len/2, src + len/2)`; the first reads the buffer bytes
`[0, len/2)` and the second the bytes `[len/2, len)`, two equal halves without
overlap or gap; and the flash content once both writes are complete equals the
content the single write of the NRF52832 path leaves, once complete, when
started on the same content; when nothing is outstanding at the two calls this
is the flash as it is at the return. -/
theorem split_write_equivalence (dst : Nat) (src : Ptr) (len : Nat) (w v : World)
    (n1 n2 m : Nat) (rest rest1 : List Nat)
    (hlen : len % 8 = 0)
    (hw : w.script = List.replicate n1 NRF_ERROR_BUSY ++ NRF_SUCCESS ::
      (List.replicate n2 NRF_ERROR_BUSY ++ NRF_SUCCESS :: rest))
    (haw : Avail 2 w)
    (hv : v.script = List.replicate m NRF_ERROR_BUSY ++ NRF_SUCCESS :: rest1)
    (hav : Avail 1 v)
    (hset : settled v = settled w) :
    ∃ w2 v1 x1 x2,
      fal_program false dst src len w = .ret len w2 ∧
      fal_program true dst src len v = .ret len v1 ∧
      w2.trace = w.trace
        ++ (busy_trace (first_half_write dst src len) n1 ++ [first_half_write dst src len]) ++ x1
        ++ (busy_trace (second_half_write dst src len) n2 ++ [second_half_write dst src len]) ++ x2 ∧
      WaitTrace w.sd_en x1 ∧ WaitTrace w.sd_en x2 ∧
      (∀ i, (first_half_write dst src len).covers src.off i ↔ i < len / 2) ∧
      (∀ i, (second_half_write dst src len).covers src.off i ↔ len / 2 ≤ i ∧ i < len) ∧
      len / 2 + len / 2 = len ∧
      settled w2 = settled v1 ∧
      (Quiet w → Quiet v → w2.mem = v1.mem) := by
  obtain ⟨w1, w2, x1, x2, h1, hc1, hc2, _⟩ :=
    fal_program_split_ok dst src len w n1 n2 rest hw 0 haw
  obtain ⟨v1, y, h2, hc, _⟩ := fal_program_832_ok dst src len v m rest1 hv 0 hav
  have h8 : 4 * (len / 8) = len / 2 := by omega
  have h4 : 4 * (len / 4) = len := by omega
  have h2s : len / 2 + len / 2 = len := by omega
  have hsettled : settled w2 = settled v1 := by
    rw [cycle_settled _ _ _ _ _ _ _ hc2, cycle_settled _ _ _ _ _ _ _ hc1,
      cycle_settled _ _ _ _ _ _ _ hc, hset, h8, program_bytes_append, h2s, h4]
  refine ⟨w2, v1, x1, x2, h1, h2, ?_, hc1.shape, ?_, ?_, ?_, h2s, hsettled, ?_⟩
  · rw [hc2.trace, hc1.trace]; rfl
  · have := hc2.shape
    rw [hc1.sd_en] at this
    exact this
  · intro i
    rw [covers_first, h8]
  · intro i
    rw [covers_second, h8, h2s]
  · intro hqw hqv
    obtain ⟨_, q1⟩ := cycle_quiet _ _ _ _ _ _ _ hc1 hqw
    obtain ⟨_, q2⟩ := cycle_quiet _ _ _ _ _ _ _ hc2 q1
    obtain ⟨_, q3⟩ := cycle_quiet _ _ _ _ _ _ _ hc hqv
    rw [← settled_quiet w2 q2, ← settled_quiet v1 q3]
    exact hsettled

theorem split_write_equivalence_witness :
    ∃ w2 v1 x1 x2,
      fal_program false 4096 (Ptr.ofList (zeros 8)) 8 (activeWorld 0 [2, 2]) = .ret 8 w2 ∧
      fal_program true 4096 (Ptr.ofList (zeros 8)) 8 erasedWorld = .ret 8 v1 ∧
      w2.trace = (activeWorld 0 [2, 2]).trace
        ++ (busy_trace (first_half_write 4096 (Ptr.ofList (zeros 8)) 8) 0 ++
            [first_half_write 4096 (Ptr.ofList (zeros 8)) 8]) ++ x1
        ++ (busy_trace (second_half_write 4096 (Ptr.ofList (zeros 8)) 8) 0 ++
            [second_half_write 4096 (Ptr.ofList (zeros 8)) 8]) ++ x2 ∧
      WaitTrace (activeWorld 0 [2, 2]).sd_en x1 ∧ WaitTrace (activeWorld 0 [2, 2]).sd_en x2 ∧
      (∀ i, (first_half_write 4096 (Ptr.ofList (zeros 8)) 8).covers (Ptr.ofList (zeros 8)).off i
        ↔ i < 8 / 2) ∧
      (∀ i, (second_half_write 4096 (Ptr.ofList (zeros 8)) 8).covers (Ptr.ofList (zeros 8)).off i
        ↔ 8 / 2 ≤ i ∧ i < 8) ∧
      8 / 2 + 8 / 2 = 8 ∧
      settled w2 = settled v1 ∧
      (Quiet (activeWorld 0 [2, 2]) → Quiet erasedWorld → w2.mem = v1.mem) :=
  split_write_equivalence 4096 (Ptr.ofList (zeros 8)) 8 (activeWorld 0 [2, 2]) erasedWorld 0 0 0 []
    [NRF_SUCCESS] (by decide) rfl (Or.inr ⟨_, rfl, by decide, by decide⟩) rfl (Or.inl rfl) rfl

/-- C10: on the non-NRF52832 path, for every `len`, a `fal_program` whose two
writes succeed returns `len` and issues the write of `len/8` words from buffer
offset 0 to `dst` and the write of `len/8` words from buffer offset `len/2` to
`dst + len/2`; the flash, once both are complete, is the old flash with these
two ranges programmed (and so it is at the return when nothing was outstanding
at the call).  The writes read the buffer bytes `[0, 4*(len/8))` and
`[len/2, len/2 + 4*(len/8))`; the two ranges never overlap, and together they
are the whole of `[0, len)` if and only if `len` is a multiple of 8. -/
theorem split_write_coverage (dst : Nat) (src : Ptr) (len : Nat) (w : World)
    (n1 n2 : Nat) (rest : List Nat)
    (hw : w.script = List.replicate n1 NRF_ERROR_BUSY ++ NRF_SUCCESS ::
      (List.replicate n2 NRF_ERROR_BUSY ++ NRF_SUCCESS :: rest))
    (ha : Avail 2 w) :
    ∃ w2 x1 x2,
      fal_program false dst src len w = .ret len w2 ∧
      w2.trace = w.trace
        ++ (busy_trace (first_half_write dst src len) n1 ++ [first_half_write dst src len]) ++ x1
        ++ (busy_trace (second_half_write dst src len) n2 ++ [second_half_write dst src len]) ++ x2 ∧
      WaitTrace w.sd_en x1 ∧ WaitTrace w.sd_en x2 ∧
      settled w2 = program_bytes ((dst + len / 2) % U32) (src.add (len / 2)) (4 * (len / 8))
        (program_bytes dst src (4 * (len / 8)) (settled w)) ∧
      (Quiet w →
        w2.mem = program_bytes ((dst + len / 2) % U32) (src.add (len / 2)) (4 * (len / 8))
          (program_bytes dst src (4 * (len / 8)) w.mem)) ∧
      (∀ i, (first_half_write dst src len).covers src.off i ↔ i < 4 * (len / 8)) ∧
      (∀ i, (second_half_write dst src len).covers src.off i ↔
        len / 2 ≤ i ∧ i < len / 2 + 4 * (len / 8)) ∧
      (∀ i, ¬ ((first_half_write dst src len).covers src.off i ∧
        (second_half_write dst src len).covers src.off i)) ∧
      ((∀ i, ((first_half_write dst src len).covers src.off i ∨
          (second_half_write dst src len).covers src.off i) ↔ i < len) ↔ len % 8 = 0) := by
  obtain ⟨w1, w2, x1, x2, h1, hc1, hc2, _⟩ :=
    fal_program_split_ok dst src len w n1 n2 rest hw 0 ha
  refine ⟨w2, x1, x2, h1, ?_, hc1.shape, ?_, ?_, ?_, covers_first dst src len,
    covers_second dst src len, ?_, ?_⟩
  · rw [hc2.trace, hc1.trace]; rfl
  · have := hc2.shape
    rw [hc1.sd_en] at this
    exact this
  · rw [cycle_settled _ _ _ _ _ _ _ hc2, cycle_settled _ _ _ _ _ _ _ hc1]
  · intro hq
    obtain ⟨m1, q1⟩ := cycle_quiet _ _ _ _ _ _ _ hc1 hq
    obtain ⟨m2, _⟩ := cycle_quiet _ _ _ _ _ _ _ hc2 q1
    rw [m2, m1]
  · intro i
    rw [covers_first, covers_second]
    omega
  · constructor
    · intro h
      by_contra h8
      have hpos : 0 < len := by omega
      have := (h (len - 1)).mpr (by omega)
      rw [covers_first, covers_second] at this
      omega
    · intro h8 i
      rw [covers_first, covers_second]
      omega

theorem split_write_coverage_witness :
    ∃ w2 x1 x2,
      fal_program false 4096 (Ptr.ofList (zeros 9)) 9 erasedWorld = .ret 9 w2 ∧
      w2.trace = erasedWorld.trace
        ++ (busy_trace (first_half_write 4096 (Ptr.ofList (zeros 9)) 9) 0 ++
            [first_half_write 4096 (Ptr.ofList (zeros 9)) 9]) ++ x1
        ++ (busy_trace (second_half_write 4096 (Ptr.ofList (zeros 9)) 9) 0 ++
            [second_half_write 4096 (Ptr.ofList (zeros 9)) 9]) ++ x2 ∧
      WaitTrace erasedWorld.sd_en x1 ∧ WaitTrace erasedWorld.sd_en x2 ∧
      settled w2 = program_bytes ((4096 + 9 / 2) % U32) ((Ptr.ofList (zeros 9)).add (9 / 2))
        (4 * (9 / 8))
        (program_bytes 4096 (Ptr.ofList (zeros 9)) (4 * (9 / 8)) (settled erasedWorld)) ∧
      (Quiet erasedWorld →
        w2.mem = program_bytes ((4096 + 9 / 2) % U32) ((Ptr.ofList (zeros 9)).add (9 / 2))
          (4 * (9 / 8))
          (program_bytes 4096 (Ptr.ofList (zeros 9)) (4 * (9 / 8)) erasedWorld.mem)) ∧
      (∀ i, (first_half_write 4096 (Ptr.ofList (zeros 9)) 9).covers (Ptr.ofList (zeros 9)).off i
        ↔ i < 4 * (9 / 8)) ∧
      (∀ i, (second_half_write 4096 (Ptr.ofList (zeros 9)) 9).covers (Ptr.ofList (zeros 9)).off i
        ↔ 9 / 2 ≤ i ∧ i < 9 / 2 + 4 * (9 / 8)) ∧
      (∀ i, ¬ ((first_half_write 4096 (Ptr.ofList (zeros 9)) 9).covers (Ptr.ofList (zeros 9)).off i ∧
        (second_half_write 4096 (Ptr.ofList (zeros 9)) 9).covers (Ptr.ofList (zeros 9)).off i)) ∧
      ((∀ i, ((first_half_write 4096 (Ptr.ofList (zeros 9)) 9).covers (Ptr.ofList (zeros 9)).off i ∨
          (second_half_write 4096 (Ptr.ofList (zeros 9)) 9).covers (Ptr.ofList (zeros 9)).off i)
          ↔ i < 9) ↔ 9 % 8 = 0) :=
  split_write_coverage 4096 (Ptr.ofList (zeros 9)) 9 erasedWorld 0 0 [] rfl (Or.inl rfl)

/-! ## Counting in traces -/

theorem count_busy_trace_other (a ev : Event) (n : Nat) (h1 : a ≠ ev)
    (h2 : a ≠ Event.delay 1) : (busy_trace ev n ++ [ev]).count a = 0 := by
  rw [List.count_eq_zero]
  intro hm
  induction n with
  | zero =>
    simp only [busy_trace, List.nil_append, List.mem_singleton] at hm
    exact h1 hm
  | succ n ih =>
    simp only [busy_trace, List.cons_append, List.mem_cons] at hm
    rcases hm with hm | hm | hm
    · exact h1 hm
    · exact h2 hm
    · exact ih hm

theorem count_busy_trace_call (ev : Event) (n : Nat) (h : ev ≠ Event.delay 1) :
    (busy_trace ev n ++ [ev]).count ev = n + 1 := by
  induction n with
  | zero => simp [busy_trace]
  | succ n ih =>
    have h2 : (Event.delay 1 == ev) = false := by
      simp only [beq_eq_false_iff_ne, ne_eq]
      exact fun hc => h hc.symm
    simp only [busy_trace, List.cons_append, List.count_cons, ih, h2, beq_self_eq_true, if_true]
    simp

theorem count_busy_trace_delay (ev : Event) (n : Nat) (h : ev ≠ Event.delay 1) :
    (busy_trace ev n ++ [ev]).count (Event.delay 1) = n := by
  induction n with
  | zero =>
    simp only [busy_trace, List.nil_append, List.count_eq_zero, List.mem_singleton]
    exact fun hc => h hc.symm
  | succ n ih =>
    have h2 : (ev == Event.delay 1) = false := by
      simp only [beq_eq_false_iff_ne, ne_eq]
      exact h
    simp only [busy_trace, List.cons_append, List.count_cons, ih, h2, beq_self_eq_true, if_true]
    simp

theorem takes_cycle_active (t x : List Event) (ev : Event) (n sd : Nat)
    (h1 : Event.sem_take ≠ ev) (hx : WaitTrace sd x) (hsd : sd ≠ 0) :
    takes (t ++ (busy_trace ev n ++ [ev]) ++ x) = takes t + 1 := by
  have hb : takes (busy_trace ev n ++ [ev]) = 0 :=
    count_busy_trace_other Event.sem_take ev n h1 (by simp)
  rw [takes_append, takes_append, hb]
  rcases hx with ⟨h0, _⟩ | ⟨_, rfl | rfl⟩
  · exact absurd h0 hsd
  · rfl
  · rfl

/-! ## The lazy construction -/

theorem init_semaphore_script (w : World) : (init_semaphore w).script = w.script := by
  unfold init_semaphore; cases w.sem <;> rfl

theorem init_semaphore_sd_en (w : World) : (init_semaphore w).sd_en = w.sd_en := by
  unfold init_semaphore; cases w.sem <;> rfl

theorem init_semaphore_mem (w : World) : (init_semaphore w).mem = w.mem := by
  unfold init_semaphore; cases w.sem <;> rfl

theorem init_semaphore_events (w : World) : (init_semaphore w).events = w.events := by
  unfold init_semaphore; cases w.sem <;> rfl

theorem init_semaphore_takes (w : World) : takes (init_semaphore w).trace = takes w.trace := by
  unfold init_semaphore
  cases w.sem with
  | none => simp [xSemaphoreCreateCounting, takes, List.count_append]
  | some s => rfl

theorem init_semaphore_gives (w : World) : gives (init_semaphore w).trace = gives w.trace := by
  unfold init_semaphore
  cases w.sem with
  | none => simp [xSemaphoreCreateCounting, gives, List.count_append]
  | some s => rfl

theorem init_semaphore_count (w : World) : sem_count (init_semaphore w) = sem_count w := by
  unfold init_semaphore
  cases hs : w.sem with
  | none =>
    cases hh : w.heap_ok <;> simp [xSemaphoreCreateCounting, sem_count, hs, hh]
  | some s => simp [sem_count, hs]

theorem init_semaphore_units (w : World) : units (init_semaphore w) = units w := by
  simp [units, init_semaphore_count, init_semaphore_events]

/-! ## Hard errors -/

theorem cycle_fail {α : Type} (ev : Event) (eff : (Nat → Nat) → (Nat → Nat)) (n r : Nat)
    (rest : List Nat) (w : World) (fail : α) (cont : Nat → World → Result α)
    (hr1 : r ≠ NRF_SUCCESS) (hr2 : r ≠ NRF_ERROR_BUSY)
    (hw : w.script = List.replicate n NRF_ERROR_BUSY ++ r :: rest) :
    ((busy_loop (controller_call ev eff) w).bind fun err w1 =>
        if err ≠ NRF_SUCCESS then .ret fail w1 else cont err w1) =
      .ret fail { w with script := rest, trace := w.trace ++ (busy_trace ev n ++ [ev]) } := by
  rw [busy_loop_spec ev eff n r rest hr2 w hw]
  simp [Result.bind, hr1]

/-- C3: let a primitive answer `r`, neither success nor Busy, after `n` Busy
answers.  Then `fal_erase` returns false and `fal_program` returns 0, in the
state reached at that answer: the failing invocation is the last entry of the
trace (no primitive is invoked again, no unit of the semaphore is acquired
after it) and the script left over is untouched.  On the split path an error
of the first write ends the call before any second write; an error of the
second write (world `v`: the first write succeeds after `m` Busy answers and
its cycle ends in `w1`) ends it likewise. -/
theorem hard_error_ends_call (addr dst : Nat) (src : Ptr) (len : Nat) (w v : World)
    (n m r : Nat) (rest : List Nat)
    (hr1 : r ≠ NRF_SUCCESS) (hr2 : r ≠ NRF_ERROR_BUSY) :
    ((init_semaphore w).sem ≠ none →
      w.script = List.replicate n NRF_ERROR_BUSY ++ r :: rest →
      fal_erase addr w = .ret false { init_semaphore w with
        script := rest
        trace := (init_semaphore w).trace ++
          (busy_trace (Event.page_erase (addr / FLASH_NRF52_PAGE_SIZE)) n ++
            [Event.page_erase (addr / FLASH_NRF52_PAGE_SIZE)]) }) ∧
    (w.script = List.replicate n NRF_ERROR_BUSY ++ r :: rest →
      fal_program true dst src len w = .ret 0 { w with
        script := rest
        trace := w.trace ++ (busy_trace (whole_write dst src len) n ++ [whole_write dst src len]) }) ∧
    (w.script = List.replicate n NRF_ERROR_BUSY ++ r :: rest →
      fal_program false dst src len w = .ret 0 { w with
        script := rest
        trace := w.trace ++
          (busy_trace (first_half_write dst src len) n ++ [first_half_write dst src len]) }) ∧
    (v.script = List.replicate m NRF_ERROR_BUSY ++ NRF_SUCCESS ::
        (List.replicate n NRF_ERROR_BUSY ++ r :: rest) →
      Avail 1 v →
      ∃ w1 x1,
        Cycle (first_half_write dst src len) (program_bytes dst src (4 * (len / 8))) m
          (List.replicate n NRF_ERROR_BUSY ++ r :: rest) v w1 x1 ∧
        fal_program false dst src len v = .ret 0 { w1 with
          script := rest
          trace := w1.trace ++
            (busy_trace (second_half_write dst src len) n ++ [second_half_write dst src len]) }) := by
  refine ⟨?_, ?_, ?_, ?_⟩
  · intro hs hw
    obtain ⟨s, hs⟩ := Option.ne_none_iff_exists'.mp hs
    rw [fal_erase_unfold addr w s hs]
    exact cycle_fail _ _ n r rest _ false _ hr1 hr2 (by rw [init_semaphore_script, hw])
  · intro hw
    simp only [fal_program, if_true]
    exact cycle_fail _ _ n r rest w 0 _ hr1 hr2 hw
  · intro hw
    simp only [fal_program, Bool.false_eq_true, if_false]
    exact cycle_fail _ _ n r rest w 0 _ hr1 hr2 hw
  · intro hw ha
    obtain ⟨v1, w1, x1, h1, h2, hc1, _⟩ := cycle_ok (first_half_write dst src len)
      (program_bytes dst src (4 * (len / 8))) m _ v hw 0 ha
    refine ⟨w1, x1, hc1, ?_⟩
    have h1p : busy_loop (sd_flash_write dst src (len / 8)) v = .ret NRF_SUCCESS v1 := h1
    simp only [fal_program, Bool.false_eq_true, if_false, h1p, Result.bind, h2]
    simp only [ne_eq, not_true_eq_false, if_false]
    exact cycle_fail (second_half_write dst src len) _ n r rest w1 0 _ hr1 hr2 hc1.script

theorem hard_error_ends_call_witness :
    fal_erase 4096 { erasedWorld with script := [NRF_ERROR_BUSY, 7] } = .ret false
      { init_semaphore { erasedWorld with script := [NRF_ERROR_BUSY, 7] } with
        script := []
        trace := (init_semaphore { erasedWorld with script := [NRF_ERROR_BUSY, 7] }).trace ++
          (busy_trace (Event.page_erase (4096 / FLASH_NRF52_PAGE_SIZE)) 1 ++
            [Event.page_erase (4096 / FLASH_NRF52_PAGE_SIZE)]) } ∧
    fal_program true 4096 (Ptr.ofList (zeros 8)) 8 { erasedWorld with script := [NRF_ERROR_BUSY, 7] }
      = .ret 0 { erasedWorld with
        script := []
        trace := erasedWorld.trace ++ (busy_trace (whole_write 4096 (Ptr.ofList (zeros 8)) 8) 1 ++
          [whole_write 4096 (Ptr.ofList (zeros 8)) 8]) } ∧
    fal_program false 4096 (Ptr.ofList (zeros 8)) 8 { erasedWorld with script := [NRF_ERROR_BUSY, 7] }
      = .ret 0 { erasedWorld with
        script := []
        trace := erasedWorld.trace ++
          (busy_trace (first_half_write 4096 (Ptr.ofList (zeros 8)) 8) 1 ++
            [first_half_write 4096 (Ptr.ofList (zeros 8)) 8]) } ∧
    ∃ w1 x1,
      Cycle (first_half_write 4096 (Ptr.ofList (zeros 8)) 8)
        (program_bytes 4096 (Ptr.ofList (zeros 8)) (4 * (8 / 8))) 0
        (List.replicate 1 NRF_ERROR_BUSY ++ 7 :: [])
        { erasedWorld with script := [NRF_SUCCESS, NRF_ERROR_BUSY, 7] } w1 x1 ∧
      fal_program false 4096 (Ptr.ofList (zeros 8)) 8
          { erasedWorld with script := [NRF_SUCCESS, NRF_ERROR_BUSY, 7] } = .ret 0 { w1 with
        script := []
        trace := w1.trace ++
          (busy_trace (second_half_write 4096 (Ptr.ofList (zeros 8)) 8) 1 ++
            [second_half_write 4096 (Ptr.ofList (zeros 8)) 8]) } :=
  have h := hard_error_ends_call 4096 4096 (Ptr.ofList (zeros 8)) 8
    { erasedWorld with script := [NRF_ERROR_BUSY, 7] }
    { erasedWorld with script := [NRF_SUCCESS, NRF_ERROR_BUSY, 7] } 1 0 7 []
    (by decide) (by decide)
  ⟨h.1 (by decide) rfl, h.2.1 rfl, h.2.2.1 rfl, h.2.2.2 rfl (Or.inl rfl)⟩

/-! ## The retry loop of the source functions -/

theorem bind_ret_eq {α β : Type} (v : α) (w : World) (f : α → World → Result β) :
    (Result.ret v w).bind f = f v w := rfl

theorem bind_ret_world {α : Type} (r : Result Unit) (v : α) :
    (r.bind fun _ w2 => Result.ret v w2).world = r.world := by
  cases r <;> rfl

theorem cycle_trace {α : Type} (ev : Event) (eff : (Nat → Nat) → (Nat → Nat)) (n r : Nat)
    (rest : List Nat) (w : World) (sd : World → Nat) (fail v : α)
    (hr : r ≠ NRF_ERROR_BUSY)
    (hw : w.script = List.replicate n NRF_ERROR_BUSY ++ r :: rest) :
    ∃ x, ((busy_loop (controller_call ev eff) w).bind fun err w1 =>
          if err ≠ NRF_SUCCESS then .ret fail w1
          else (wait_completion (sd w1) w1).bind fun _ w2 => .ret v w2).world.trace =
        w.trace ++ (busy_trace ev n ++ [ev]) ++ x ∧
      (∀ e ∈ x, e = Event.sem_take ∨ e = Event.sem_give) ∧
      ((busy_loop (controller_call ev eff) w).bind fun err w1 =>
          if err ≠ NRF_SUCCESS then .ret fail w1
          else (wait_completion (sd w1) w1).bind fun _ w2 => .ret v w2).world.script = rest := by
  obtain ⟨wa, hwa, htr, hsc⟩ : ∃ wa, busy_loop (controller_call ev eff) w = .ret r wa ∧
      wa.trace = w.trace ++ (busy_trace ev n ++ [ev]) ∧ wa.script = rest :=
    ⟨_, busy_loop_spec ev eff n r rest hr w hw, rfl, rfl⟩
  rw [hwa, bind_ret_eq]
  by_cases h0 : r ≠ NRF_SUCCESS
  · rw [if_pos h0]
    exact ⟨[], by simp [Result.world, htr], by simp, hsc⟩
  · rw [if_neg h0, bind_ret_world]
    have hf := wait_frame (sd wa) wa
    obtain ⟨x, hx, hxs⟩ := hf.trace
    exact ⟨x, by rw [hx, htr], hxs, hf.script.trans hsc⟩

/-- C4: let the controller answer Busy `n` times and then `r`, not Busy.  The
retry loop on `sd_flash_page_erase(page)` and on `sd_flash_write(dst, src,
size)` then returns with `err = r`, having consumed exactly these `n + 1`
answers: the trace grew by `n` rounds "primitive, `delay(1)`" and one last
invocation, all with the same arguments, so the primitive is invoked `n + 1`
times and `delay(1)` is called `n` times; only when `r` is success does the
operation take effect, on the flash with the stack inactive and as a pending
operation with the stack active.  While the answers are Busy the loop does not stop: on a script of
`n` Busy answers and nothing else it is still retrying after `n` rounds.  In
`fal_erase`, in `fal_program` on the NRF52832 path and in the second write of
the split path this is all the call does to the controller: the trace of the
whole call is these `2n + 1` entries followed by semaphore operations only,
and the script left over is untouched; the first write of the split path
likewise starts the call with these entries. -/
theorem busy_retry_loop (page addr dst size len : Nat) (src : Ptr) (n m r : Nat)
    (rest : List Nat) (w v u : World) (hr : r ≠ NRF_ERROR_BUSY) :
    (w.script = List.replicate n NRF_ERROR_BUSY ++ r :: rest →
      busy_loop (sd_flash_page_erase page) w = .ret r { w with
        script := rest
        mem := if r = NRF_SUCCESS ∧ w.sd_en = 0 then erase_page page w.mem else w.mem
        pending := if r = NRF_SUCCESS ∧ w.sd_en ≠ 0 then w.pending ++ [erase_page page]
          else w.pending
        trace := w.trace ++ (busy_trace (Event.page_erase page) n ++ [Event.page_erase page]) } ∧
      busy_loop (sd_flash_write dst src size) w = .ret r { w with
        script := rest
        mem := if r = NRF_SUCCESS ∧ w.sd_en = 0 then program_bytes dst src (4 * size) w.mem
          else w.mem
        pending := if r = NRF_SUCCESS ∧ w.sd_en ≠ 0
          then w.pending ++ [program_bytes dst src (4 * size)] else w.pending
        trace := w.trace ++ (busy_trace (Event.flash_write dst src.off size) n ++
          [Event.flash_write dst src.off size]) }) ∧
    (v.script = List.replicate n NRF_ERROR_BUSY →
      busy_loop (sd_flash_page_erase page) v = .busy_forever { v with
        script := []
        trace := v.trace ++ busy_trace (Event.page_erase page) n } ∧
      busy_loop (sd_flash_write dst src size) v = .busy_forever { v with
        script := []
        trace := v.trace ++ busy_trace (Event.flash_write dst src.off size) n }) ∧
    (∀ ev, ev = Event.page_erase page ∨ ev = Event.flash_write dst src.off size →
      (busy_trace ev n ++ [ev]).count ev = n + 1 ∧
      (busy_trace ev n ++ [ev]).count (Event.delay 1) = n ∧
      (busy_trace ev n ++ [ev]).length = 2 * n + 1 ∧
      (busy_trace ev n ++ [ev]).getLast? = some ev) ∧
    (w.script = List.replicate n NRF_ERROR_BUSY ++ r :: rest → (init_semaphore w).sem ≠ none →
      ∃ x, (fal_erase addr w).world.trace = (init_semaphore w).trace ++
          (busy_trace (Event.page_erase (addr / FLASH_NRF52_PAGE_SIZE)) n ++
            [Event.page_erase (addr / FLASH_NRF52_PAGE_SIZE)]) ++ x ∧
        (∀ e ∈ x, e = Event.sem_take ∨ e = Event.sem_give) ∧
        (fal_erase addr w).world.script = rest) ∧
    (w.script = List.replicate n NRF_ERROR_BUSY ++ r :: rest →
      ∃ x, (fal_program true dst src len w).world.trace = w.trace ++
          (busy_trace (whole_write dst src len) n ++ [whole_write dst src len]) ++ x ∧
        (∀ e ∈ x, e = Event.sem_take ∨ e = Event.sem_give) ∧
        (fal_program true dst src len w).world.script = rest) ∧
    (w.script = List.replicate n NRF_ERROR_BUSY ++ r :: rest →
      ∃ x, (fal_program false dst src len w).world.trace = w.trace ++
          (busy_trace (first_half_write dst src len) n ++ [first_half_write dst src len]) ++ x) ∧
    (u.script = List.replicate m NRF_ERROR_BUSY ++ NRF_SUCCESS ::
        (List.replicate n NRF_ERROR_BUSY ++ r :: rest) →
      Avail 1 u →
      ∃ w1 x1 x,
        Cycle (first_half_write dst src len) (program_bytes dst src (4 * (len / 8))) m
          (List.replicate n NRF_ERROR_BUSY ++ r :: rest) u w1 x1 ∧
        (fal_program false dst src len u).world.trace = w1.trace ++
          (busy_trace (second_half_write dst src len) n ++ [second_half_write dst src len]) ++ x ∧
        (∀ e ∈ x, e = Event.sem_take ∨ e = Event.sem_give) ∧
        (fal_program false dst src len u).world.script = rest) := by
  refine ⟨fun hw => ⟨?_, ?_⟩, fun hv => ⟨?_, ?_⟩, ?_, ?_, ?_, ?_, ?_⟩
  · exact busy_loop_spec _ _ n r rest hr w hw
  · exact busy_loop_spec _ _ n r rest hr w hw
  · show retry_busy _ v.script v = _
    rw [hv]
    exact retry_busy_exhausted _ _ n v hv
  · show retry_busy _ v.script v = _
    rw [hv]
    exact retry_busy_exhausted _ _ n v hv
  · intro ev hev
    have hne : ev ≠ Event.delay 1 := by rcases hev with rfl | rfl <;> simp
    refine ⟨count_busy_trace_call ev n hne, count_busy_trace_delay ev n hne, ?_, by simp⟩
    clear hev hne
    induction n with
    | zero => simp [busy_trace]
    | succ n ih =>
      simp only [busy_trace, List.cons_append, List.length_cons, ih]
      omega
  · intro hw hs
    obtain ⟨s, hs⟩ := Option.ne_none_iff_exists'.mp hs
    rw [fal_erase_unfold addr w s hs]
    exact cycle_trace _ _ n r rest _ (fun w2 => w2.sd_en) false true hr
      (by rw [init_semaphore_script, hw])
  · intro hw
    simp only [fal_program, if_true]
    exact cycle_trace _ _ n r rest w (fun _ => w.sd_en) 0 len hr hw
  · intro hw
    simp only [fal_program, Bool.false_eq_true, if_false]
    show ∃ x, ((busy_loop (controller_call (first_half_write dst src len)
      (program_bytes dst src (4 * (len / 8)))) w).bind _).world.trace = _
    obtain ⟨wa, hwa, htr, hsda⟩ : ∃ wa, busy_loop (controller_call (first_half_write dst src len)
        (program_bytes dst src (4 * (len / 8)))) w = .ret r wa ∧
        wa.trace = w.trace ++ (busy_trace (first_half_write dst src len) n ++
          [first_half_write dst src len]) ∧ wa.sd_en = w.sd_en :=
      ⟨_, busy_loop_spec _ _ n r rest hr w hw, rfl, rfl⟩
    rw [hwa, bind_ret_eq]
    by_cases h0 : r ≠ NRF_SUCCESS
    · rw [if_pos h0]
      exact ⟨[], by simp [Result.world, htr]⟩
    · rw [if_neg h0]
      have hk := keeps_bind _ (wait_completion w.sd_en wa)
        (fun _ w2 => (busy_loop (sd_flash_write ((dst + len / 2) % U32) (src.add (len / 2))
            (len / 8)) w2).bind fun err2 w3 =>
              if err2 ≠ NRF_SUCCESS then Result.ret 0 w3
              else (wait_completion w.sd_en w3).bind fun _ w4 => Result.ret len w4)
        (keeps_wait _ _ hsda.symm)
        (fun _ w2 hr2 => keeps_cycle _ _ _ _ (fun w4 => Result.ret len w4) w2
          (by
            have := keeps_wait w.sd_en wa hsda.symm
            rw [hr2] at this
            exact (this.sd_en.trans hsda).symm)
          (by simp) rfl (fun w4 _ => keeps_refl w4))
      obtain ⟨x, hx⟩ := hk.grows
      exact ⟨x, by rw [hx, htr]⟩
  · intro hu ha
    obtain ⟨v1, w1, x1, h1, h2, hc1, _⟩ := cycle_ok (first_half_write dst src len)
      (program_bytes dst src (4 * (len / 8))) m _ u hu 0 ha
    have h1p : busy_loop (sd_flash_write dst src (len / 8)) u = .ret NRF_SUCCESS v1 := h1
    have hgoal : fal_program false dst src len u =
        (busy_loop (controller_call (second_half_write dst src len)
          (program_bytes ((dst + len / 2) % U32) (src.add (len / 2)) (4 * (len / 8)))) w1).bind
          fun err w3 =>
            if err ≠ NRF_SUCCESS then .ret 0 w3
            else (wait_completion ((fun _ => u.sd_en) w3) w3).bind fun _ w4 => .ret len w4 := by
      simp only [fal_program, Bool.false_eq_true, if_false, h1p, Result.bind, h2]
      simp only [ne_eq, not_true_eq_false, if_false]
      rfl
    rw [hgoal]
    obtain ⟨x, hx, hxs, hsc⟩ := cycle_trace (second_half_write dst src len)
      (program_bytes ((dst + len / 2) % U32) (src.add (len / 2)) (4 * (len / 8))) n r rest w1
      (fun _ => u.sd_en) 0 len hr hc1.script
    exact ⟨w1, x1, x, hc1, hx, hxs, hsc⟩

theorem busy_retry_loop_witness :
    (busy_loop (sd_flash_page_erase 1) { erasedWorld with script := [NRF_ERROR_BUSY, NRF_ERROR_BUSY, 7, 9] }
      = .ret 7 { erasedWorld with
        script := [9]
        mem := if 7 = NRF_SUCCESS ∧ erasedWorld.sd_en = 0 then erase_page 1 erasedWorld.mem
          else erasedWorld.mem
        pending := if 7 = NRF_SUCCESS ∧ erasedWorld.sd_en ≠ 0
          then erasedWorld.pending ++ [erase_page 1] else erasedWorld.pending
        trace := erasedWorld.trace ++ (busy_trace (Event.page_erase 1) 2 ++ [Event.page_erase 1]) } ∧
      busy_loop (sd_flash_write 4096 (Ptr.ofList (zeros 8)) 2)
          { erasedWorld with script := [NRF_ERROR_BUSY, NRF_ERROR_BUSY, 7, 9] }
      = .ret 7 { erasedWorld with
        script := [9]
        mem := if 7 = NRF_SUCCESS ∧ erasedWorld.sd_en = 0
          then program_bytes 4096 (Ptr.ofList (zeros 8)) (4 * 2) erasedWorld.mem else erasedWorld.mem
        pending := if 7 = NRF_SUCCESS ∧ erasedWorld.sd_en ≠ 0
          then erasedWorld.pending ++ [program_bytes 4096 (Ptr.ofList (zeros 8)) (4 * 2)]
          else erasedWorld.pending
        trace := erasedWorld.trace ++
          (busy_trace (Event.flash_write 4096 (Ptr.ofList (zeros 8)).off 2) 2 ++
            [Event.flash_write 4096 (Ptr.ofList (zeros 8)).off 2]) }) ∧
    (busy_loop (sd_flash_page_erase 1) { erasedWorld with script := [NRF_ERROR_BUSY, NRF_ERROR_BUSY] }
      = .busy_forever { erasedWorld with
        script := []
        trace := erasedWorld.trace ++ busy_trace (Event.page_erase 1) 2 } ∧
      busy_loop (sd_flash_write 4096 (Ptr.ofList (zeros 8)) 2)
          { erasedWorld with script := [NRF_ERROR_BUSY, NRF_ERROR_BUSY] }
      = .busy_forever { erasedWorld with
        script := []
        trace := erasedWorld.trace ++
          busy_trace (Event.flash_write 4096 (Ptr.ofList (zeros 8)).off 2) 2 }) ∧
    (∃ x, (fal_erase 4096 { erasedWorld with script := [NRF_ERROR_BUSY, NRF_ERROR_BUSY, 7, 9] }).world.trace
        = (init_semaphore { erasedWorld with script := [NRF_ERROR_BUSY, NRF_ERROR_BUSY, 7, 9] }).trace ++
          (busy_trace (Event.page_erase (4096 / FLASH_NRF52_PAGE_SIZE)) 2 ++
            [Event.page_erase (4096 / FLASH_NRF52_PAGE_SIZE)]) ++ x ∧
        (∀ e ∈ x, e = Event.sem_take ∨ e = Event.sem_give) ∧
        (fal_erase 4096 { erasedWorld with script := [NRF_ERROR_BUSY, NRF_ERROR_BUSY, 7, 9] }).world.script
          = [9]) ∧
    (∃ x, (fal_program true 4096 (Ptr.ofList (zeros 8)) 8
          { erasedWorld with script := [NRF_ERROR_BUSY, NRF_ERROR_BUSY, 7, 9] }).world.trace
        = erasedWorld.trace ++ (busy_trace (whole_write 4096 (Ptr.ofList (zeros 8)) 8) 2 ++
            [whole_write 4096 (Ptr.ofList (zeros 8)) 8]) ++ x ∧
        (∀ e ∈ x, e = Event.sem_take ∨ e = Event.sem_give) ∧
        (fal_program true 4096 (Ptr.ofList (zeros 8)) 8
          { erasedWorld with script := [NRF_ERROR_BUSY, NRF_ERROR_BUSY, 7, 9] }).world.script
          = [9]) ∧
    (∃ x, (fal_program false 4096 (Ptr.ofList (zeros 8)) 8
          { erasedWorld with script := [NRF_ERROR_BUSY, NRF_ERROR_BUSY, 7, 9] }).world.trace
        = erasedWorld.trace ++ (busy_trace (first_half_write 4096 (Ptr.ofList (zeros 8)) 8) 2 ++
            [first_half_write 4096 (Ptr.ofList (zeros 8)) 8]) ++ x) ∧
    (∃ w1 x1 x,
        Cycle (first_half_write 4096 (Ptr.ofList (zeros 8)) 8)
          (program_bytes 4096 (Ptr.ofList (zeros 8)) (4 * (8 / 8))) 1
          (List.replicate 2 NRF_ERROR_BUSY ++ 7 :: [9])
          { erasedWorld with script :=
            [NRF_ERROR_BUSY, NRF_SUCCESS, NRF_ERROR_BUSY, NRF_ERROR_BUSY, 7, 9] } w1 x1 ∧
        (fal_program false 4096 (Ptr.ofList (zeros 8)) 8 { erasedWorld with script :=
            [NRF_ERROR_BUSY, NRF_SUCCESS, NRF_ERROR_BUSY, NRF_ERROR_BUSY, 7, 9] }).world.trace
          = w1.trace ++ (busy_trace (second_half_write 4096 (Ptr.ofList (zeros 8)) 8) 2 ++
            [second_half_write 4096 (Ptr.ofList (zeros 8)) 8]) ++ x ∧
        (∀ e ∈ x, e = Event.sem_take ∨ e = Event.sem_give) ∧
        (fal_program false 4096 (Ptr.ofList (zeros 8)) 8 { erasedWorld with script :=
            [NRF_ERROR_BUSY, NRF_SUCCESS, NRF_ERROR_BUSY, NRF_ERROR_BUSY, 7, 9] }).world.script
          = [9]) :=
  have h := busy_retry_loop 1 4096 4096 2 8 (Ptr.ofList (zeros 8)) 2 1 7 [9]
    { erasedWorld with script := [NRF_ERROR_BUSY, NRF_ERROR_BUSY, 7, 9] }
    { erasedWorld with script := [NRF_ERROR_BUSY, NRF_ERROR_BUSY] }
    { erasedWorld with script := [NRF_ERROR_BUSY, NRF_SUCCESS, NRF_ERROR_BUSY, NRF_ERROR_BUSY, 7, 9] }
    (by decide)
  ⟨h.1 rfl, h.2.1 rfl, h.2.2.2.1 rfl (by decide), h.2.2.2.2.1 rfl, h.2.2.2.2.2.1 rfl,
    h.2.2.2.2.2.2 rfl (Or.inl rfl)⟩

/-! ## Completion accounting -/

theorem cycle_accounting (ev : Event) (eff : (Nat → Nat) → (Nat → Nat)) (n : Nat)
    (rest : List Nat) (w w1 : World) (x : List Event) (hc : Cycle ev eff n rest w w1 x)
    (hsd : w.sd_en ≠ 0) (h1 : Event.sem_take ≠ ev) (h2 : Event.sem_give ≠ ev) :
    takes x = 1 ∧ takes w1.trace = takes w.trace + 1 ∧
      gives w1.trace + min (sem_count w) 1 = gives w.trace + 1 ∧
      sem_count w1 = sem_count w - 1 := by
  have hb : gives (busy_trace ev n ++ [ev]) = 0 :=
    count_busy_trace_other Event.sem_give ev n h2 (by simp)
  have happ : ∀ a b : List Event, gives (a ++ b) = gives a + gives b := by
    intro a b; simp [gives, List.count_append]
  have ht := takes_cycle_active w.trace x ev n w.sd_en h1 hc.shape hsd
  rw [← hc.trace] at ht
  by_cases hcnt : 0 < sem_count w
  · obtain ⟨_, _, e3, e4⟩ := hc.stale hsd hcnt
    refine ⟨by rw [e3]; rfl, ht, ?_, by omega⟩
    rw [hc.trace, happ, happ, hb, e3]
    have : gives [Event.sem_take] = 0 := rfl
    rw [this, Nat.min_eq_right (by omega)]
  · have h0 : sem_count w = 0 := by omega
    obtain ⟨_, _, e3, e4⟩ := hc.waited hsd h0
    refine ⟨by rw [e4]; rfl, ht, ?_, by omega⟩
    rw [hc.trace, happ, happ, hb, e4, h0]
    rfl

/-- C5, as stated, fails.  With the stack active and both writes accepted, a
`fal_program` on the split path acquires two units of the semaphore, not one:
it waits for the two completion events, or uses up two units that were in the
semaphore, and with a single completion on its way it does not return.  And
a call that finds a unit in the semaphore waits for no callback at all: the
`fal_erase` below returns true with one unit acquired and no give in its
trace. -/
theorem split_program_takes_two_units :
    (activeWorld 0 [2, 2]).sd_en ≠ 0 ∧
    (fal_program false 4096 (Ptr.ofList (zeros 8)) 8 (activeWorld 0 [2, 2])).value = some 8 ∧
    takes (fal_program false 4096 (Ptr.ofList (zeros 8)) 8 (activeWorld 0 [2, 2])).world.trace = 2 ∧
    gives (fal_program false 4096 (Ptr.ofList (zeros 8)) 8 (activeWorld 0 [2, 2])).world.trace = 2 ∧
    (fal_program false 4096 (Ptr.ofList (zeros 8)) 8 (activeWorld 0 [2, 2])).world.events = [] ∧
    (fal_program false 4096 (Ptr.ofList (zeros 8)) 8 (activeWorld 0 [2])).value = none ∧
    (fal_program false 4096 (Ptr.ofList (zeros 8)) 8 (activeWorld 2 [])).value = some 8 ∧
    (fal_program false 4096 (Ptr.ofList (zeros 8)) 8 (activeWorld 2 [])).world.sem =
      some { max := 10, count := 0 } ∧
    (fal_erase 4096 (activeWorld 1 [])).value = some true ∧
    (fal_erase 4096 (activeWorld 1 [])).world.trace = [Event.page_erase 1, Event.sem_take] ∧
    takes (fal_erase 4096 (activeWorld 1 [])).world.trace = 1 ∧
    gives (fal_erase 4096 (activeWorld 1 [])).world.trace = 0 := by
  refine ⟨by decide, by decide, by decide, by decide, by decide, by decide, by decide, by decide,
    by decide, by decide, by decide, by decide⟩

/-- C5, amended: with the stack reported active and the primitives succeeding,
`fal_erase` and `fal_program` on the NRF52832 path acquire exactly one unit of
the semaphore before they return, and `fal_program` on the non-NRF52832 path
acquires exactly two, one after each half (`x1` after the first write, `x2`
after the second).  A unit is acquired by waiting for exactly one callback
invocation when the semaphore holds none, and without waiting when it holds
one: the callbacks run during the call are one (two on the split path) less
the units found in the semaphore, and the units in the semaphore or on their
way go down by one (by two). -/
theorem completion_accounting_active (addr dst : Nat) (src : Ptr) (len : Nat)
    (w v : World) (n n1 n2 : Nat) (rest rest2 : List Nat)
    (hw : w.script = List.replicate n NRF_ERROR_BUSY ++ NRF_SUCCESS :: rest)
    (hsd : w.sd_en ≠ 0)
    (hv : v.script = List.replicate n1 NRF_ERROR_BUSY ++ NRF_SUCCESS ::
      (List.replicate n2 NRF_ERROR_BUSY ++ NRF_SUCCESS :: rest2))
    (hvsd : v.sd_en ≠ 0) :
    (Avail 1 (init_semaphore w) →
      ∃ w1, fal_erase addr w = .ret true w1 ∧ takes w1.trace = takes w.trace + 1 ∧
        units w1 + 1 = units w ∧ gives w1.trace ≤ gives w.trace + 1 ∧
        gives w1.trace + min (sem_count w) 1 = gives w.trace + 1 ∧
        (sem_count w = 0 → gives w1.trace = gives w.trace + 1)) ∧
    (Avail 1 w →
      ∃ w1, fal_program true dst src len w = .ret len w1 ∧ takes w1.trace = takes w.trace + 1 ∧
        units w1 + 1 = units w ∧ gives w1.trace ≤ gives w.trace + 1 ∧
        gives w1.trace + min (sem_count w) 1 = gives w.trace + 1 ∧
        (sem_count w = 0 → gives w1.trace = gives w.trace + 1)) ∧
    (Avail 2 v →
      ∃ w2 x1 x2, fal_program false dst src len v = .ret len w2 ∧
        w2.trace = v.trace
          ++ (busy_trace (first_half_write dst src len) n1 ++ [first_half_write dst src len])
          ++ x1
          ++ (busy_trace (second_half_write dst src len) n2 ++ [second_half_write dst src len])
          ++ x2 ∧
        takes x1 = 1 ∧ takes x2 = 1 ∧
        takes w2.trace = takes v.trace + 2 ∧
        units w2 + 2 = units v ∧ gives w2.trace ≤ gives v.trace + 2 ∧
        gives w2.trace + min (sem_count v) 2 = gives v.trace + 2 ∧
        (sem_count v = 0 → gives w2.trace = gives v.trace + 2 ∧
          x1 = [Event.sem_give, Event.sem_take] ∧ x2 = [Event.sem_give, Event.sem_take])) := by
  refine ⟨?_, ?_, ?_⟩
  · intro ha
    have hsd1 : (init_semaphore w).sd_en ≠ 0 := by rw [init_semaphore_sd_en]; exact hsd
    obtain ⟨s, hs⟩ : ∃ s, (init_semaphore w).sem = some s := by
      rcases ha with h | ⟨s, hs, _⟩
      · exact absurd h hsd1
      · exact ⟨s, hs⟩
    obtain ⟨w1, x, h1, hc, _⟩ := fal_erase_ok addr w s n rest hs hw 0 ha
    obtain ⟨_, a2, a3, _⟩ := cycle_accounting _ _ _ _ _ _ _ hc hsd1 (by simp) (by simp)
    rw [init_semaphore_takes] at a2
    rw [init_semaphore_gives, init_semaphore_count] at a3
    refine ⟨w1, h1, a2, ?_, by omega, a3, fun h0 => by rw [h0] at a3; simpa using a3⟩
    rw [hc.active hsd1, init_semaphore_units]
  · intro ha
    obtain ⟨w1, x, h1, hc, _⟩ := fal_program_832_ok dst src len w n rest hw 0 ha
    obtain ⟨_, a2, a3, _⟩ := cycle_accounting _ _ _ _ _ _ _ hc hsd (by simp) (by simp)
    exact ⟨w1, h1, a2, hc.active hsd, by omega, a3, fun h0 => by rw [h0] at a3; simpa using a3⟩
  · intro ha
    obtain ⟨w1, w2, x1, x2, h1, hc1, hc2, _⟩ :=
      fal_program_split_ok dst src len v n1 n2 rest2 hv 0 ha
    have hsd1 : w1.sd_en ≠ 0 := by rw [hc1.sd_en]; exact hvsd
    obtain ⟨t1, a2, a3, a4⟩ := cycle_accounting _ _ _ _ _ _ _ hc1 hvsd (by simp) (by simp)
    obtain ⟨t2, b2, b3, _⟩ := cycle_accounting _ _ _ _ _ _ _ hc2 hsd1 (by simp) (by simp)
    have u1 := hc1.active hvsd
    have u2 := hc2.active hsd1
    refine ⟨w2, x1, x2, h1, ?_, t1, t2, by omega, by omega, by omega, ?_, ?_⟩
    · rw [hc2.trace, hc1.trace]; rfl
    · rw [a4] at b3
      omega
    · intro h0
      obtain ⟨_, _, c3, c4⟩ := hc1.waited hvsd h0
      obtain ⟨_, _, _, d4⟩ := hc2.waited hsd1 c3
      rw [a4] at b3
      exact ⟨by omega, c4, d4⟩

theorem completion_accounting_active_witness :
    (∃ w1, fal_erase 4096 (activeWorld 0 [2]) = .ret true w1 ∧
        takes w1.trace = takes (activeWorld 0 [2]).trace + 1 ∧
        units w1 + 1 = units (activeWorld 0 [2]) ∧
        gives w1.trace ≤ gives (activeWorld 0 [2]).trace + 1 ∧
        gives w1.trace + min (sem_count (activeWorld 0 [2])) 1
          = gives (activeWorld 0 [2]).trace + 1 ∧
        (sem_count (activeWorld 0 [2]) = 0 → gives w1.trace = gives (activeWorld 0 [2]).trace + 1)) ∧
    (∃ w1, fal_program true 4096 (Ptr.ofList (zeros 8)) 8 (activeWorld 0 [2]) = .ret 8 w1 ∧
        takes w1.trace = takes (activeWorld 0 [2]).trace + 1 ∧
        units w1 + 1 = units (activeWorld 0 [2]) ∧
        gives w1.trace ≤ gives (activeWorld 0 [2]).trace + 1 ∧
        gives w1.trace + min (sem_count (activeWorld 0 [2])) 1
          = gives (activeWorld 0 [2]).trace + 1 ∧
        (sem_count (activeWorld 0 [2]) = 0 → gives w1.trace = gives (activeWorld 0 [2]).trace + 1)) ∧
    (∃ w2 x1 x2, fal_program false 4096 (Ptr.ofList (zeros 8)) 8 (activeWorld 0 [2, 2]) = .ret 8 w2 ∧
        w2.trace = (activeWorld 0 [2, 2]).trace
          ++ (busy_trace (first_half_write 4096 (Ptr.ofList (zeros 8)) 8) 0 ++
              [first_half_write 4096 (Ptr.ofList (zeros 8)) 8])
          ++ x1
          ++ (busy_trace (second_half_write 4096 (Ptr.ofList (zeros 8)) 8) 0 ++
              [second_half_write 4096 (Ptr.ofList (zeros 8)) 8])
          ++ x2 ∧
        takes x1 = 1 ∧ takes x2 = 1 ∧
        takes w2.trace = takes (activeWorld 0 [2, 2]).trace + 2 ∧
        units w2 + 2 = units (activeWorld 0 [2, 2]) ∧
        gives w2.trace ≤ gives (activeWorld 0 [2, 2]).trace + 2 ∧
        gives w2.trace + min (sem_count (activeWorld 0 [2, 2])) 2
          = gives (activeWorld 0 [2, 2]).trace + 2 ∧
        (sem_count (activeWorld 0 [2, 2]) = 0 →
          gives w2.trace = gives (activeWorld 0 [2, 2]).trace + 2 ∧
          x1 = [Event.sem_give, Event.sem_take] ∧ x2 = [Event.sem_give, Event.sem_take])) :=
  have h := completion_accounting_active 4096 4096 (Ptr.ofList (zeros 8)) 8
    (activeWorld 0 [2]) (activeWorld 0 [2, 2]) 0 0 0 [NRF_SUCCESS] [] rfl (by decide) rfl
    (by decide)
  ⟨h.1 (Or.inr ⟨_, rfl, by decide, by decide⟩),
   h.2.1 (Or.inr ⟨_, rfl, by decide, by decide⟩),
   h.2.2 (Or.inr ⟨_, rfl, by decide, by decide⟩)⟩

/-- C6: with the stack reported inactive, `fal_erase` and `fal_program`,
however they end, acquire no unit of the semaphore, leave its count as it was
(a semaphore constructed in the call holds no unit) and consume no completion
event; and they return, `true` and `len`, as soon as the primitives succeed,
whatever the event queue holds, the empty queue included. -/
theorem no_wait_when_inactive (nrf52832 : Bool) (addr dst : Nat) (src : Ptr) (len : Nat)
    (w : World) (hsd : w.sd_en = 0) :
    (takes (fal_erase addr w).world.trace = takes w.trace ∧
      sem_count (fal_erase addr w).world = sem_count w ∧
      (fal_erase addr w).world.events = w.events) ∧
    (takes (fal_program nrf52832 dst src len w).world.trace = takes w.trace ∧
      (fal_program nrf52832 dst src len w).world.sem = w.sem ∧
      (fal_program nrf52832 dst src len w).world.events = w.events) ∧
    (∀ n rest, (init_semaphore w).sem ≠ none →
      w.script = List.replicate n NRF_ERROR_BUSY ++ NRF_SUCCESS :: rest →
      (fal_erase addr w).value = some true) ∧
    (∀ n rest, w.script = List.replicate n NRF_ERROR_BUSY ++ NRF_SUCCESS :: rest →
      (fal_program true dst src len w).value = some len) ∧
    (∀ n1 n2 rest, w.script = List.replicate n1 NRF_ERROR_BUSY ++ NRF_SUCCESS ::
        (List.replicate n2 NRF_ERROR_BUSY ++ NRF_SUCCESS :: rest) →
      (fal_program false dst src len w).value = some len) := by
  have hsd1 : (init_semaphore w).sd_en = 0 := by rw [init_semaphore_sd_en]; exact hsd
  have he := keeps_erase_body addr w
  have hp := keeps_program nrf52832 dst src len w
  refine ⟨⟨?_, ?_, ?_⟩, ⟨hp.idle_takes hsd, hp.idle_sem hsd, hp.idle_events hsd⟩, ?_, ?_, ?_⟩
  · rw [he.idle_takes hsd1, init_semaphore_takes]
  · have := he.idle_sem hsd1
    rw [← init_semaphore_count w]
    simp only [sem_count, this]
  · rw [he.idle_events hsd1, init_semaphore_events]
  · intro n rest hs hw
    obtain ⟨s, hs⟩ := Option.ne_none_iff_exists'.mp hs
    obtain ⟨w1, x, h1, _, _⟩ := fal_erase_ok addr w s n rest hs hw 0 (Or.inl hsd1)
    rw [h1]; rfl
  · intro n rest hw
    obtain ⟨w1, x, h1, _, _⟩ := fal_program_832_ok dst src len w n rest hw 0 (Or.inl hsd)
    rw [h1]; rfl
  · intro n1 n2 rest hw
    obtain ⟨w1, w2, x1, x2, h1, _, _, _⟩ :=
      fal_program_split_ok dst src len w n1 n2 rest hw 0 (Or.inl hsd)
    rw [h1]; rfl

theorem no_wait_when_inactive_witness :
    erasedWorld.events = [] ∧
    (takes (fal_erase 4096 erasedWorld).world.trace = takes erasedWorld.trace ∧
      sem_count (fal_erase 4096 erasedWorld).world = sem_count erasedWorld ∧
      (fal_erase 4096 erasedWorld).world.events = erasedWorld.events) ∧
    (takes (fal_program false 4096 (Ptr.ofList (zeros 8)) 8 erasedWorld).world.trace
        = takes erasedWorld.trace ∧
      (fal_program false 4096 (Ptr.ofList (zeros 8)) 8 erasedWorld).world.sem = erasedWorld.sem ∧
      (fal_program false 4096 (Ptr.ofList (zeros 8)) 8 erasedWorld).world.events
        = erasedWorld.events) ∧
    (fal_erase 4096 erasedWorld).value = some true ∧
    (fal_program true 4096 (Ptr.ofList (zeros 8)) 8 erasedWorld).value = some 8 ∧
    (fal_program false 4096 (Ptr.ofList (zeros 8)) 8 erasedWorld).value = some 8 :=
  have h := no_wait_when_inactive false 4096 4096 (Ptr.ofList (zeros 8)) 8 erasedWorld rfl
  ⟨rfl, h.1, h.2.1, h.2.2.1 0 [NRF_SUCCESS] (by decide) rfl, h.2.2.2.1 0 [NRF_SUCCESS] rfl,
    h.2.2.2.2 0 0 [] rfl⟩

/-! ## Erase, then read -/

theorem aligned_page (A : Nat) (hal : A % FLASH_NRF52_PAGE_SIZE = 0) :
    A / FLASH_NRF52_PAGE_SIZE * FLASH_NRF52_PAGE_SIZE = A := by
  simp only [FLASH_NRF52_PAGE_SIZE] at *
  omega

theorem aligned_page_fits (A : Nat) (hal : A % FLASH_NRF52_PAGE_SIZE = 0) (hA : A < U32) :
    A + FLASH_NRF52_PAGE_SIZE ≤ U32 := by
  simp only [FLASH_NRF52_PAGE_SIZE, U32] at *
  omega

theorem take_never (s : Sem) (hc : s.count = 0) (hmax : s.max = 0) (evs : List Nat)
    (w : World) (hs : w.sem = some s) : (xSemaphoreTake_wait evs w).value = none := by
  induction evs generalizing w with
  | nil => simp [xSemaphoreTake_wait, hs, hc, Result.value]
  | cons e rest ih =>
    obtain ⟨a1, a2, a3, a4, a5, pend, a7, a8⟩ := w
    simp only at hs
    subst hs
    rw [xSemaphoreTake_wait]
    simp only [hc, Nat.lt_irrefl, if_false]
    apply ih
    obtain ⟨mx, ct⟩ := s
    simp only at hc hmax
    subst hc
    subst hmax
    cases pend <;> simp [dispatch, complete_oldest, flash_nrf5x_event_cb, xSemaphoreGive]

theorem bind_eq_ret {α β : Type} (r : Result α) (f : α → World → Result β) (v : β)
    (w1 : World) (h : r.bind f = .ret v w1) : ∃ a wa, r = .ret a wa ∧ f a wa = .ret v w1 := by
  cases r with
  | ret a wa => exact ⟨a, wa, rfl, h⟩
  | busy_forever wa => simp [Result.bind] at h
  | blocked wa => simp [Result.bind] at h
  | fault wa => simp [Result.bind] at h

theorem take_ret_of_empty (s : Sem) (hc : s.count = 0) (evs : List Nat) (w w1 : World)
    (hs : w.sem = some s) (h : xSemaphoreTake_wait evs w = .ret () w1) :
    0 < s.max ∧ 1 ≤ evs.length := by
  constructor
  · by_contra hmax
    have := take_never s hc (by omega) evs w hs
    rw [h] at this
    simp [Result.value] at this
  · cases evs with
    | nil => simp [xSemaphoreTake_wait, hs, hc] at h
    | cons e rest => simp

theorem init_semaphore_quiet (w : World) (hq : Quiet w) : Quiet (init_semaphore w) := by
  have hp : (init_semaphore w).pending = w.pending := by
    unfold init_semaphore; cases w.sem <;> rfl
  refine ⟨by rw [hp]; exact hq.1, ?_⟩
  rw [init_semaphore_sd_en, init_semaphore_count]
  exact hq.2

theorem fal_erase_ret_true (A : Nat) (w w1 : World) (hq : Quiet w)
    (h : fal_erase A w = .ret true w1) :
    ∃ s n rest, (init_semaphore w).sem = some s ∧
      w.script = List.replicate n NRF_ERROR_BUSY ++ NRF_SUCCESS :: rest ∧
      Avail 1 (init_semaphore w) := by
  cases hs : (init_semaphore w).sem with
  | none =>
    rw [fal_erase_failed_init A w hs] at h
    injection h with hv _
    exact absurd hv (by decide)
  | some s =>
    rw [fal_erase_unfold A w s hs] at h
    obtain ⟨err, wa, hR, h2⟩ := bind_eq_ret _ _ _ _ h
    by_cases he : err ≠ NRF_SUCCESS
    · rw [if_pos he] at h2
      injection h2 with hv _
      exact absurd hv (by decide)
    · have he0 : err = NRF_SUCCESS := by
        by_contra hc
        exact he hc
      subst he0
      rw [if_neg he] at h2
      obtain ⟨_, w3, hW, _⟩ := bind_eq_ret _ _ _ _ h2
      obtain ⟨_, n, rest, hsc⟩ := retry_ret_script _ _ _ _ _ _ hR
      rw [init_semaphore_script] at hsc
      refine ⟨s, n, rest, rfl, hsc, ?_⟩
      by_cases h0 : (init_semaphore w).sd_en = 0
      · exact Or.inl h0
      · have hf := retry_frame (Event.page_erase (A / FLASH_NRF52_PAGE_SIZE))
          (erase_page (A / FLASH_NRF52_PAGE_SIZE)) (init_semaphore w).script (init_semaphore w)
        have hR2 : retry_busy (controller_call (Event.page_erase (A / FLASH_NRF52_PAGE_SIZE))
            (erase_page (A / FLASH_NRF52_PAGE_SIZE))) (init_semaphore w).script (init_semaphore w)
            = .ret NRF_SUCCESS wa := hR
        rw [hR2] at hf
        have hsa : wa.sem = some s := by
          have := hf.sem
          simp only [Result.world] at this
          rw [this, hs]
        have hea : wa.events = (init_semaphore w).events := hf.events
        have hda : wa.sd_en ≠ 0 := by
          have := hf.sd_en
          simp only [Result.world] at this
          rw [this]
          exact h0
        have hcnt : s.count = 0 := by
          rcases (init_semaphore_quiet w hq).2 with hq0 | hq0
          · exact absurd hq0 h0
          · simpa [sem_count, hs] using hq0
        have hT : xSemaphoreTake_wait wa.events wa = .ret () w3 := by
          simpa [wait_completion, hda, xSemaphoreTake] using hW
        obtain ⟨hmax, hlen⟩ := take_ret_of_empty s hcnt _ _ _ hsa hT
        rw [hea] at hlen
        exact Or.inr ⟨s, hs, hmax, by omega⟩

theorem fal_read_head (A n : Nat) (w : World) (hn : n ≠ 0) :
    (fal_read A n w).2.head? = some (w.mem (A % U32)) := by
  obtain ⟨k, rfl⟩ := Nat.exists_eq_succ_of_ne_zero hn
  simp [fal_read, List.range_succ_eq_map]

/-- C7, as stated, fails when a unit is left in the semaphore with the stack
active: `fal_erase(4096)` has its erase accepted, takes that unit at once and
returns true while the erase is still pending, so the page read back at 4096
begins with the old byte 0 and not with 0xFF.  Such a state is reached through
the entry points of the file: after `fal_erase(4096)` and one more invocation
of the callback the semaphore holds a unit, and `fal_erase(8192)` returns true
with page 2 not yet erased. -/
theorem erase_returns_before_completion :
    4096 % FLASH_NRF52_PAGE_SIZE = 0 ∧
    staleWorld.sd_en = 1 ∧ staleWorld.sem = some { max := 10, count := 1 } ∧
    (fal_erase 4096 staleWorld).value = some true ∧
    (fal_erase 4096 staleWorld).world.trace = [Event.page_erase 1, Event.sem_take] ∧
    (fal_erase 4096 staleWorld).world.mem 4096 = 0 ∧
    (fal_read 4096 FLASH_NRF52_PAGE_SIZE (fal_erase 4096 staleWorld).world).2.head? = some 0 ∧
    (fal_read 4096 FLASH_NRF52_PAGE_SIZE (fal_erase 4096 staleWorld).world).2 ≠
      List.replicate FLASH_NRF52_PAGE_SIZE ERASED ∧
    (run false [Call.erase 4096, Call.event_cb 2] programmedWorld).sem =
      some { max := 10, count := 1 } ∧
    (run false [Call.erase 4096, Call.event_cb 2] programmedWorld).mem 4096 = ERASED ∧
    (fal_erase 8192 (run false [Call.erase 4096, Call.event_cb 2] programmedWorld)).value
      = some true ∧
    (fal_erase 8192 (run false [Call.erase 4096, Call.event_cb 2] programmedWorld)).world.mem 8192
      = 0 := by
  have hhead : (fal_read 4096 FLASH_NRF52_PAGE_SIZE (fal_erase 4096 staleWorld).world).2.head?
      = some 0 := by
    rw [fal_read_head 4096 FLASH_NRF52_PAGE_SIZE _ (by decide)]
    decide
  refine ⟨by decide, rfl, rfl, by decide, by decide, by decide, hhead, ?_, by decide, by decide,
    by decide, by decide⟩
  intro h
  have hpage : FLASH_NRF52_PAGE_SIZE = 4095 + 1 := rfl
  rw [h, hpage, List.replicate_succ, List.head?_cons] at hhead
  injection hhead with hbyte
  exact absurd hbyte (by decide)

/-- C7, amended: let `A` be a page-aligned 32-bit address and let nothing be
outstanding at the call: no operation is pending and, with the stack active,
the semaphore holds no unit.  The page index `A / PAGE` names the page that
starts exactly at `A`.  Whenever `fal_erase(A)` returns true, every
invocation of the page-erase primitive in the call was passed `A / PAGE`, a
`fal_read` of the whole page at `A` yields only bytes 0xFF, and no byte outside
`[A, A + PAGE)` has changed.  And `fal_erase(A)` does return true when the
semaphore is there, the erase succeeds after finitely many Busy answers and,
with the stack active, its completion arrives. -/
theorem erase_then_read (A : Nat) (w : World) (hal : A % FLASH_NRF52_PAGE_SIZE = 0)
    (hA : A < U32) (hq : Quiet w) :
    A / FLASH_NRF52_PAGE_SIZE * FLASH_NRF52_PAGE_SIZE = A ∧
    (∀ w1, fal_erase A w = .ret true w1 →
      (∃ n x, w1.trace = (init_semaphore w).trace ++
          (busy_trace (Event.page_erase (A / FLASH_NRF52_PAGE_SIZE)) n ++
            [Event.page_erase (A / FLASH_NRF52_PAGE_SIZE)]) ++ x ∧
        ∀ e ∈ x, e = Event.sem_take ∨ e = Event.sem_give) ∧
      fal_read A FLASH_NRF52_PAGE_SIZE w1 =
        (FLASH_NRF52_PAGE_SIZE, List.replicate FLASH_NRF52_PAGE_SIZE ERASED) ∧
      (∀ a, a < A ∨ A + FLASH_NRF52_PAGE_SIZE ≤ a → w1.mem a = w.mem a)) ∧
    (∀ n rest, w.script = List.replicate n NRF_ERROR_BUSY ++ NRF_SUCCESS :: rest →
      (init_semaphore w).sem ≠ none → Avail 1 (init_semaphore w) →
      ∃ w1, fal_erase A w = .ret true w1) := by
  have hpage := aligned_page A hal
  have hfit := aligned_page_fits A hal hA
  refine ⟨hpage, ?_, ?_⟩
  · intro w1 h
    obtain ⟨s, n, rest, hs, hsc, hav⟩ := fal_erase_ret_true A w w1 hq h
    obtain ⟨w2, x, h2, hc, _⟩ := fal_erase_ok A w s n rest hs hsc 0 hav
    rw [h] at h2
    injection h2 with _ hw
    subst hw
    have hmem : w1.mem = erase_page (A / FLASH_NRF52_PAGE_SIZE) w.mem := by
      rw [(cycle_quiet _ _ _ _ _ _ _ hc (init_semaphore_quiet w hq)).1, init_semaphore_mem]
    refine ⟨⟨n, x, hc.trace, ?_⟩, ?_, ?_⟩
    · intro e he
      rcases hc.shape with ⟨_, hx⟩ | ⟨_, hx | hx⟩
      · rw [hx] at he; simp at he
      · rw [hx] at he; simp at he; exact Or.inl he
      · rw [hx] at he
        simp only [List.mem_cons, List.mem_singleton, List.not_mem_nil, or_false] at he
        rcases he with he | he
        · exact Or.inr he
        · exact Or.inl he
    · unfold fal_read
      rw [Prod.mk.injEq, List.eq_replicate_iff]
      refine ⟨rfl, by simp, ?_⟩
      intro b hb
      obtain ⟨i, hi, rfl⟩ := List.mem_map.mp hb
      have hi2 : i < FLASH_NRF52_PAGE_SIZE := List.mem_range.mp hi
      rw [Nat.mod_eq_of_lt (by omega), hmem]
      unfold erase_page
      rw [hpage, if_pos]
      constructor
      · omega
      · rw [Nat.add_mul, hpage]; omega
    · intro a ha
      rw [hmem]
      unfold erase_page
      rw [hpage, if_neg]
      rw [Nat.add_mul, hpage]
      omega
  · intro n rest hw hs ha
    obtain ⟨s, hs⟩ := Option.ne_none_iff_exists'.mp hs
    obtain ⟨w1, x, h1, _, _⟩ := fal_erase_ok A w s n rest hs hw 0 ha
    exact ⟨w1, h1⟩

theorem erase_then_read_witness :
    4096 / FLASH_NRF52_PAGE_SIZE * FLASH_NRF52_PAGE_SIZE = 4096 ∧
    (∀ w1, fal_erase 4096 programmedWorld = .ret true w1 →
      (∃ n x, w1.trace = (init_semaphore programmedWorld).trace ++
          (busy_trace (Event.page_erase (4096 / FLASH_NRF52_PAGE_SIZE)) n ++
            [Event.page_erase (4096 / FLASH_NRF52_PAGE_SIZE)]) ++ x ∧
        ∀ e ∈ x, e = Event.sem_take ∨ e = Event.sem_give) ∧
      fal_read 4096 FLASH_NRF52_PAGE_SIZE w1 =
        (FLASH_NRF52_PAGE_SIZE, List.replicate FLASH_NRF52_PAGE_SIZE ERASED) ∧
      (∀ a, a < 4096 ∨ 4096 + FLASH_NRF52_PAGE_SIZE ≤ a → w1.mem a = programmedWorld.mem a)) ∧
    ∃ w1, fal_erase 4096 programmedWorld = .ret true w1 :=
  have h := erase_then_read 4096 programmedWorld (by decide) (by decide) ⟨rfl, Or.inr rfl⟩
  ⟨h.1, h.2.1, h.2.2 0 [NRF_SUCCESS] rfl (by decide) (Or.inr ⟨_, rfl, by decide, by decide⟩)⟩

/-! ## The completion callback -/

/-- C8, as stated, fails: on a semaphore that holds its capacity of 10 units
the callback gives, and the count is still 10 afterwards. -/
theorem event_cb_at_capacity :
    (activeWorld 10 []).sem = some { max := 10, count := 10 } ∧
    sem_count (flash_nrf5x_event_cb 2 (activeWorld 10 [])) = 10 ∧
    sem_count (flash_nrf5x_event_cb 2 (activeWorld 10 [])) ≠ sem_count (activeWorld 10 []) + 1 := by
  refine ⟨rfl, by decide, by decide⟩

/-- C8, amended: for every event value and every state, `flash_nrf5x_event_cb`
calls `xSemaphoreGive` exactly once when the semaphore has been constructed,
which raises the count by exactly 1 while it is below the capacity and leaves
it at the capacity otherwise, and leaves the whole state unchanged when the
semaphore has not been constructed; it never constructs the semaphore and
never invokes a flash primitive (flash and script stay as they are). -/
theorem event_cb_contract (event : Nat) (w : World) :
    (w.sem = none → flash_nrf5x_event_cb event w = w) ∧
    (∀ s, w.sem = some s →
      flash_nrf5x_event_cb event w = { w with
        sem := some { s with count := if s.count < s.max then s.count + 1 else s.count }
        trace := w.trace ++ [Event.sem_give] }) ∧
    (∀ s, w.sem = some s → s.count < s.max →
      sem_count (flash_nrf5x_event_cb event w) = sem_count w + 1) ∧
    (∀ s, w.sem = some s → s.max ≤ s.count →
      sem_count (flash_nrf5x_event_cb event w) = sem_count w) ∧
    creates (flash_nrf5x_event_cb event w).trace = creates w.trace ∧
    (flash_nrf5x_event_cb event w).trace.countP Event.isPrimitive
      = w.trace.countP Event.isPrimitive ∧
    (flash_nrf5x_event_cb event w).mem = w.mem ∧
    (flash_nrf5x_event_cb event w).script = w.script := by
  cases hs : w.sem with
  | none =>
    have h : flash_nrf5x_event_cb event w = w := by simp [flash_nrf5x_event_cb, hs]
    rw [h]
    simp
  | some s =>
    have h : flash_nrf5x_event_cb event w = { w with
        sem := some { s with count := if s.count < s.max then s.count + 1 else s.count }
        trace := w.trace ++ [Event.sem_give] } := by
      simp [flash_nrf5x_event_cb, hs, xSemaphoreGive]
    rw [h]
    refine ⟨by simp, ?_, ?_, ?_, ?_, ?_, rfl, rfl⟩
    · intro t ht; cases ht; rfl
    · intro t ht hlt
      cases ht
      simp [sem_count, hs, hlt]
    · intro t ht hle
      cases ht
      have : ¬ s.count < s.max := by omega
      simp [sem_count, hs, this]
    · simp [creates, List.countP_append, Event.isCreate]
    · simp [List.countP_append, Event.isPrimitive]

theorem event_cb_contract_witness :
    flash_nrf5x_event_cb 2 erasedWorld = erasedWorld ∧
    flash_nrf5x_event_cb 2 (activeWorld 3 []) = { activeWorld 3 [] with
      sem := some { max := 10, count := 4 }
      trace := (activeWorld 3 []).trace ++ [Event.sem_give] } ∧
    sem_count (flash_nrf5x_event_cb 2 (activeWorld 3 [])) = sem_count (activeWorld 3 []) + 1 ∧
    sem_count (flash_nrf5x_event_cb 2 (activeWorld 10 [])) = sem_count (activeWorld 10 []) :=
  ⟨(event_cb_contract 2 erasedWorld).1 rfl,
   (event_cb_contract 2 (activeWorld 3 [])).2.1 _ rfl,
   (event_cb_contract 2 (activeWorld 3 [])).2.2.1 _ rfl (by decide),
   (event_cb_contract 2 (activeWorld 10 [])).2.2.2.1 _ rfl (by decide)⟩

/-! ## Lifecycle of the completion signal -/

theorem init_semaphore_of_some (w : World) (s : Sem) (hs : w.sem = some s) :
    init_semaphore w = w := by
  simp [init_semaphore, hs]

theorem init_semaphore_of_none (w : World) (hs : w.sem = none) (hh : w.heap_ok = true) :
    init_semaphore w = { w with
      sem := some { max := 10, count := 0 }
      trace := w.trace ++ [Event.sem_create 10 0] } := by
  simp [init_semaphore, hs, xSemaphoreCreateCounting, hh]

theorem keeps_event_cb (event : Nat) (w : World) (s : Sem) (hs : w.sem = some s) :
    ∃ s1, (flash_nrf5x_event_cb event w).sem = some s1 ∧ s1.max = s.max ∧
      creates (flash_nrf5x_event_cb event w).trace = creates w.trace := by
  refine ⟨{ s with count := if s.count < s.max then s.count + 1 else s.count }, ?_, rfl, ?_⟩
  · simp [flash_nrf5x_event_cb, hs, xSemaphoreGive]
  · simp [flash_nrf5x_event_cb, hs, xSemaphoreGive, creates, List.countP_append, Event.isCreate]

theorem exec_keeps_signal (b : Bool) (c : Call) (w : World) (s : Sem) (hs : w.sem = some s) :
    ∃ s1, (c.exec b w).sem = some s1 ∧ s1.max = s.max ∧
      creates (c.exec b w).trace = creates w.trace := by
  cases c with
  | erase addr =>
    have h := keeps_erase_body addr w
    rw [init_semaphore_of_some w s hs] at h
    obtain ⟨s1, h1, h2⟩ := h.sem_some s hs
    exact ⟨s1, h1, h2, h.creates⟩
  | program dst src len =>
    have h := keeps_program b dst src len w
    obtain ⟨s1, h1, h2⟩ := h.sem_some s hs
    exact ⟨s1, h1, h2, h.creates⟩
  | event_cb event => exact keeps_event_cb event w s hs

theorem run_keeps_signal (b : Bool) (calls : List Call) (w : World) (s : Sem)
    (hs : w.sem = some s) :
    ∃ s1, (run b calls w).sem = some s1 ∧ s1.max = s.max ∧
      creates (run b calls w).trace = creates w.trace := by
  induction calls generalizing w s with
  | nil => exact ⟨s, hs, rfl, rfl⟩
  | cons c cs ih =>
    obtain ⟨s1, h1, h2, h3⟩ := exec_keeps_signal b c w s hs
    obtain ⟨s2, h4, h5, h6⟩ := ih (c.exec b w) s1 h1
    exact ⟨s2, h4, h5.trans h2, h6.trans h3⟩

/-- C9, as stated, fails: when the first call of a sequence is a `fal_program`
the semaphore is not constructed in it.  With the stack inactive the call
returns `len` and `_sem` is still `NULL` afterwards; with the stack active the
call reaches `xSemaphoreTake` on the `NULL` handle. -/
theorem program_first_constructs_nothing :
    erasedWorld.sem = none ∧ erasedWorld.heap_ok = true ∧
    (fal_program false 4096 (Ptr.ofList (zeros 8)) 8 erasedWorld).value = some 8 ∧
    (run false [Call.program 4096 (Ptr.ofList (zeros 8)) 8] erasedWorld).sem = none ∧
    (run true [Call.program 4096 (Ptr.ofList (zeros 8)) 8] erasedWorld).sem = none ∧
    creates (run false [Call.program 4096 (Ptr.ofList (zeros 8)) 8] erasedWorld).trace = 0 ∧
    (fal_program false 4096 (Ptr.ofList (zeros 8)) 8 { erasedWorld with sd_en := 1 }).faulted
      = true ∧
    (fal_program true 4096 (Ptr.ofList (zeros 8)) 8 { erasedWorld with sd_en := 1 }).faulted
      = true := by
  refine ⟨rfl, rfl, by decide, by decide, by decide, by decide, by decide, by decide⟩

/-- C9, amended: the semaphore is constructed by `fal_erase` alone.  A
`fal_erase` that finds no semaphore, construction succeeding, constructs it
first of all (counting, capacity 10, initial count 0), before the erase and
before any wait, and constructs nothing else.  `fal_program` and
`flash_nrf5x_event_cb` never construct it.  Once it exists, every sequence
of `fal_erase`, `fal_program` and `flash_nrf5x_event_cb` calls leaves it in
existence with its capacity and constructs no semaphore again. -/
theorem completion_signal_lifecycle (nrf52832 : Bool) (calls : List Call) (w : World)
    (addr dst len event : Nat) (src : Ptr) :
    (w.sem = none → w.heap_ok = true →
      init_semaphore w = { w with
        sem := some { max := 10, count := 0 }
        trace := w.trace ++ [Event.sem_create 10 0] } ∧
      (∃ x, (fal_erase addr w).world.trace = w.trace ++ Event.sem_create 10 0 :: x ∧
        creates x = 0) ∧
      ∃ s, (fal_erase addr w).world.sem = some s ∧ s.max = 10) ∧
    (w.sem = none →
      (fal_program nrf52832 dst src len w).world.sem = none ∧
      creates (fal_program nrf52832 dst src len w).world.trace = creates w.trace ∧
      flash_nrf5x_event_cb event w = w) ∧
    (∀ s, w.sem = some s →
      ∃ s1, (run nrf52832 calls w).sem = some s1 ∧ s1.max = s.max ∧
        creates (run nrf52832 calls w).trace = creates w.trace) := by
  refine ⟨?_, ?_, fun s hs => run_keeps_signal nrf52832 calls w s hs⟩
  · intro hs hh
    have hi := init_semaphore_of_none w hs hh
    have hk := keeps_erase_body addr w
    refine ⟨hi, ?_, ?_⟩
    · obtain ⟨x, hx⟩ := hk.grows
      have hc := hk.creates
      refine ⟨x, ?_, ?_⟩
      · rw [hx, hi]; simp
      · rw [hx, creates_append] at hc
        omega
    · obtain ⟨s1, h1, h2⟩ := hk.sem_some { max := 10, count := 0 } (by rw [hi])
      exact ⟨s1, h1, h2⟩
  · intro hs
    have hk := keeps_program nrf52832 dst src len w
    refine ⟨hk.sem_none hs, hk.creates, ?_⟩
    simp [flash_nrf5x_event_cb, hs]

theorem completion_signal_lifecycle_witness :
    (init_semaphore erasedWorld = { erasedWorld with
        sem := some { max := 10, count := 0 }
        trace := erasedWorld.trace ++ [Event.sem_create 10 0] } ∧
      (∃ x, (fal_erase 4096 erasedWorld).world.trace =
          erasedWorld.trace ++ Event.sem_create 10 0 :: x ∧ creates x = 0) ∧
      ∃ s, (fal_erase 4096 erasedWorld).world.sem = some s ∧ s.max = 10) ∧
    ((fal_program false 4096 (Ptr.ofList (zeros 8)) 8 erasedWorld).world.sem = none ∧
      creates (fal_program false 4096 (Ptr.ofList (zeros 8)) 8 erasedWorld).world.trace
        = creates erasedWorld.trace ∧
      flash_nrf5x_event_cb 2 erasedWorld = erasedWorld) ∧
    ∃ s1, (run false [Call.erase 4096, Call.event_cb 2, Call.program 4096 (Ptr.ofList (zeros 8)) 8]
          (activeWorld 0 [2, 2, 2])).sem = some s1 ∧
        s1.max = 10 ∧
        creates (run false
          [Call.erase 4096, Call.event_cb 2, Call.program 4096 (Ptr.ofList (zeros 8)) 8]
          (activeWorld 0 [2, 2, 2])).trace = creates (activeWorld 0 [2, 2, 2]).trace :=
  ⟨(completion_signal_lifecycle false [] erasedWorld 4096 4096 8 2 (Ptr.ofList (zeros 8))).1 rfl rfl,
   (completion_signal_lifecycle false [] erasedWorld 4096 4096 8 2 (Ptr.ofList (zeros 8))).2.1 rfl,
   (completion_signal_lifecycle false
      [Call.erase 4096, Call.event_cb 2, Call.program 4096 (Ptr.ofList (zeros 8)) 8]
      (activeWorld 0 [2, 2, 2]) 4096 4096 8 2 (Ptr.ofList (zeros 8))).2.2 _ rfl⟩

end FlashNrf5x
